import Mathlib

/-!
Shallow embedding of `setuptools/config/_apply_pyprojecttoml.py`:
the translation layer between a parsed `pyproject.toml` configuration
document and the setuptools distribution/metadata model.

Configuration values are modelled by the inductive type `Val`
(strings, integers, booleans, lists and ordered tables, mirroring the
values a TOML parser produces).  Python dictionaries are modelled as
ordered association lists (`Table`), matching the insertion-order
semantics of `dict`.  Fallible Python code (KeyError, AttributeError,
TypeError, and the library's ConfigurationError) is modelled with
`Except PyErr`.

Mutation of the input document performed by the original code through
shared sub-dictionaries (the shallow `.copy()` of the project table)
is made explicit: the functions embedding `_unify_entry_points` and
`_dynamic_license` additionally return the updated value of the
sub-dictionary they mutate in place, and the embedding of `apply`
threads those updates back into the configuration document it returns.
-/

namespace PyProject

/-- Values of a parsed configuration document (TOML-like): strings,
integers, booleans, lists and ordered tables. -/
inductive Val where
  | vstr : String → Val
  | vint : Int → Val
  | vbool : Bool → Val
  | vlist : List Val → Val
  | vtable : List (String × Val) → Val

/-- An ordered association list modelling a Python `dict` with string keys. -/
abbrev Table := List (String × Val)

/-- Lookup of a key in a table (first occurrence), modelling `d.get(k)` /
`k in d`. -/
def tableGet? : Table → String → Option Val
  | [], _ => none
  | (k', v) :: r, k => if k' = k then some v else tableGet? r k

/-- Lookup with a default, modelling `d.get(k, default)`. -/
def tableGetD (t : Table) (k : String) (d : Val) : Val :=
  (tableGet? t k).getD d

/-- Key-membership test, modelling `k in d`. -/
def containsKey (t : Table) (k : String) : Bool :=
  (tableGet? t k).isSome

/-- Assignment `d[k] = v`: replaces the first binding of `k` in place
(preserving its position), or appends a new binding at the end,
matching insertion-order semantics of Python dicts. -/
def setKey : Table → String → Val → Table
  | [], k, v => [(k, v)]
  | (k', v') :: r, k, v =>
    if k' = k then (k, v) :: r else (k', v') :: setKey r k v

/-- Removal `d.pop(k, default)`: returns the removed value (if any)
and the remaining table. -/
def popKey : Table → String → Option Val × Table
  | [], _ => (none, [])
  | (k', v') :: r, k =>
    if k' = k then (some v', r)
    else
      let p := popKey r k
      (p.1, (k', v') :: p.2)

/-- Conditional insertion `d.setdefault(k, v)`: appends the binding only
when the key is absent. -/
def setdefaultKey (t : Table) (k : String) (v : Val) : Table :=
  if containsKey t k then t else t ++ [(k, v)]

/-- Truthiness of a value, modelling Python `bool(x)` as used in
`if value:` / `if entry_points:` tests. -/
def truthy : Val → Bool
  | .vstr s => !s.isEmpty
  | .vint n => decide (n ≠ 0)
  | .vbool b => b
  | .vlist xs => !xs.isEmpty
  | .vtable t => !t.isEmpty

/-- Exceptions raised by the translated code.  `keyError`,
`attributeError` and `typeError` model the built-in Python exceptions;
`configurationError` models the library's configuration-kind error
(`setuptools.errors` ConfigurationError family). -/
inductive PyErr where
  | keyError : String → PyErr
  | attributeError : String → PyErr
  | typeError : String → PyErr
  | configurationError : String → PyErr
deriving DecidableEq, Repr

/-- True exactly for the configuration-kind error. -/
def PyErr.isConfigErr : PyErr → Bool
  | .configurationError _ => true
  | _ => false

/-- Character step of `json_compatible_key`: lower-case and replace
`-` with `_` (the pattern is a single character, so `str.replace` is a
character map). -/
def normChar (c : Char) : Char :=
  if c = '-' then '_' else c.toLower

/-- Normalization from `json_compatible_key` (PEP 566): lower-case and
replace `-` with `_`. -/
def json_compatible_key (key : String) : String :=
  String.mk (key.toList.map normChar)

/-- Distribution model, the mutable target of the translation.
Modelled from the spec: the `Distribution`/`DistributionMetadata`
classes are not under src/; per spec §3 the model's three mutation
classes (dedicated setter, plain attribute, patch-field allow-list) all
store the assigned value under the field name, so the model is one
ordered field map plus the per-command options map mutated by the
tool-options validator. -/
structure Dist where
  fields : Table
  command_options : List (String × Table)

/-- Fresh metadata model instance with no field set. -/
def dist0 : Dist := ⟨[], []⟩

/-- Embedding of `_set_config`: the setter-style (`set_{field}`),
attribute-style, and patch-field (`SETUPTOOLS_PATCHES`) branches of the
source all record `value` under `field` on the model, so the embedding
stores the binding in the model's field map. -/
def _set_config (d : Dist) (field : String) (value : Val) : Dist :=
  { d with fields := setKey d.fields field value }

/-- Reads a field of the model (`None`/absent ↦ `none`). -/
def getField (d : Dist) (f : String) : Option Val :=
  tableGet? d.fields f

/-- Reads a string field of the model.  Modelled from the spec: the
end-to-end property of spec §8 reads an unset text field as `""`. -/
def getStr (d : Dist) (f : String) : String :=
  match getField d f with
  | some (.vstr s) => s
  | _ => ""

/-- External collaborators of the translation core.  These model code
that is not under src/: the file-expansion reader
(`setuptools.config.expand.read_files`), the specifier parser
(`packaging.specifiers.SpecifierSet`), the command-options index
construction (`_valid_command_options`, which scans `pkg_resources`
entry points and `Distribution.global_options`; spec §9 prescribes an
injected registry), and the two finalize hooks (`_finalize_requires`,
`_finalize_license_files` on the Distribution class), which may fail
and may move the working directory. -/
structure Externals where
  readFiles : Val → String → Except PyErr String
  specParse : Val → Except PyErr Val
  validCmdOptions : Val → List (String × List String)
  fin1 : Dist → String → (Except PyErr Dist) × String
  fin2 : Dist → String → (Except PyErr Dist) × String

/-- Body resolution of a structured readme value:
`val.get("text") or expand.read_files(val.get("file", []), root_dir)`.
A present truthy `text` value is used as-is; otherwise the file
collaborator is consulted with the `file` entry (default `[]`). -/
def readmeBody (rf : Val → Except PyErr String) (t : Table) : Except PyErr Val :=
  match tableGet? t "text" with
  | some v => if truthy v then .ok v else (rf (tableGetD t "file" (.vlist []))).map .vstr
  | none => (rf (tableGetD t "file" (.vlist []))).map .vstr

/-- Embedding of `_long_description`: a plain string is passed to the
file-expansion collaborator (`expand.read_files(val, root_dir)`) with
the fixed content-type `text/x-rst`; a table resolves its body via
`readmeBody` and then reads `val["content-type"]`, raising `KeyError`
when the key is absent.  Any other value raises `AttributeError`
(no `.get`). -/
def _long_description (ext : Externals) (root : String) (d : Dist) (val : Val) :
    Except PyErr Dist :=
  match val with
  | .vstr s =>
    match ext.readFiles (.vstr s) root with
    | .error e => .error e
    | .ok text =>
      .ok (_set_config (_set_config d "long_description" (.vstr text))
        "long_description_content_type" (.vstr "text/x-rst"))
  | .vtable t =>
    match readmeBody (fun v => ext.readFiles v root) t with
    | .error e => .error e
    | .ok text =>
      match tableGet? t "content-type" with
      | none => .error (.keyError "content-type")
      | some ctype =>
        .ok (_set_config (_set_config d "long_description" text)
          "long_description_content_type" ctype)
  | _ => .error (.attributeError "get")

/-- Embedding of `_license`: string ↦ license text; table with `file`
↦ one-element `license_files` list; otherwise `val["text"]` ↦ license
text (KeyError when absent).  Non-string/table values are a shape
error. -/
def _license (d : Dist) (val : Val) : Except PyErr Dist :=
  match val with
  | .vstr s => .ok (_set_config d "license" (.vstr s))
  | .vtable t =>
    match tableGet? t "file" with
    | some f => .ok (_set_config d "license_files" (.vlist [f]))
    | none =>
      match tableGet? t "text" with
      | some tx => .ok (_set_config d "license" tx)
      | none => .error (.keyError "text")
  | _ => .error (.typeError "license value")

/-- Formatting of `str(Address(display_name=name, addr_spec=email))`.
Modelled from the spec: the stdlib address class is external; spec §3
prescribes a single plain-text token of the shape
`display name <address>`. -/
def formatAddr (name email : String) : String :=
  name ++ " <" ++ email ++ ">"

/-- Loop body of `_people`: walks the person list accumulating the
plain-name tokens and the email-field tokens.  A person without `name`
reads `person["email"]` (KeyError when absent); a person with `name`
but no `email` contributes the name; a person with both contributes
the formatted address to the email field only.  Non-table persons and
non-string name/email values are shape errors (the source defers the
latter to `str.join`/`Address`; the embedding raises them at the
offending person). -/
def collectPeople : List Val → Except PyErr (List String × List String)
  | [] => .ok ([], [])
  | p :: rest =>
    match p with
    | .vtable t =>
      let one : Except PyErr (List String × List String) :=
        match tableGet? t "name" with
        | none =>
          match tableGet? t "email" with
          | some (.vstr e) => .ok ([], [e])
          | some _ => .error (.typeError "email value")
          | none => .error (.keyError "email")
        | some nv =>
          match tableGet? t "email" with
          | none =>
            match nv with
            | .vstr n => .ok ([n], [])
            | _ => .error (.typeError "name value")
          | some ev =>
            match nv, ev with
            | .vstr n, .vstr e => .ok ([], [formatAddr n e])
            | _, _ => .error (.typeError "person value")
      match one with
      | .error e => .error e
      | .ok (ns, es) =>
        match collectPeople rest with
        | .error e => .error e
        | .ok (ns', es') => .ok (ns ++ ns', es ++ es')
    | _ => .error (.typeError "person not a table")

/-- Embedding of `_people`: joins the accumulated tokens with `", "`
and assigns `<kind>` / `<kind>_email` only when the respective list is
non-empty (Python list truthiness). -/
def _people (d : Dist) (val : Val) (kind : String) : Except PyErr Dist :=
  match val with
  | .vlist ps =>
    match collectPeople ps with
    | .error e => .error e
    | .ok (names, emails) =>
      let d1 := if names.isEmpty then d
        else _set_config d kind (.vstr (String.intercalate ", " names))
      let d2 := if emails.isEmpty then d1
        else _set_config d1 (kind ++ "_email") (.vstr (String.intercalate ", " emails))
      .ok d2
  | _ => .error (.typeError "people not iterable")

/-- Normalization applied to project-URL labels before the alias
check: `json_compatible_key(key).replace("_", "")` (the pattern is a
single character, so the replacement is a character filter). -/
def urlNorm (key : String) : String :=
  String.mk (((json_compatible_key key).toList).filter (fun c => c ≠ '_'))

/-- Alias target of one project-URL key: the case- and
separator-insensitive specials `downloadurl` ↦ `download_url` and
`homepage` ↦ `url`, any other key targeting its own (raw) name. -/
def urlTarget (key : String) : String :=
  if urlNorm key = "downloadurl" then "download_url"
  else if urlNorm key = "homepage" then "url"
  else key

/-- Embedding of `_project_urls`: assigns each entry to the alias
target (or raw key), then stores a verbatim copy of the whole mapping
under `project_urls`. -/
def _project_urls (d : Dist) (val : Val) : Except PyErr Dist :=
  match val with
  | .vtable t =>
    let d1 := t.foldl (fun dd kv => _set_config dd (urlTarget kv.1) kv.2) d
    .ok (_set_config d1 "project_urls" (.vtable t))
  | _ => .error (.attributeError "items")

/-- Embedding of `_python_requires`: the external specifier parser is
applied to the raw value and its result stored under
`python_requires`. -/
def _python_requires (ext : Externals) (d : Dist) (val : Val) : Except PyErr Dist :=
  match ext.specParse val with
  | .error e => .error e
  | .ok sv => .ok (_set_config d "python_requires" sv)

/-- Correspondence entry: a direct target-attribute name or one of the
field translators. -/
inductive Corresp where
  | attr : String → Corresp
  | readme
  | licenseFn
  | authors
  | maintainers
  | urls
  | requiresPython

/-- Embedding of the `PYPROJECT_CORRESPONDENCE` table. -/
def PYPROJECT_CORRESPONDENCE (k : String) : Option Corresp :=
  if k = "readme" then some .readme
  else if k = "license" then some .licenseFn
  else if k = "authors" then some .authors
  else if k = "maintainers" then some .maintainers
  else if k = "urls" then some .urls
  else if k = "dependencies" then some (.attr "install_requires")
  else if k = "optional_dependencies" then some (.attr "extras_require")
  else if k = "requires_python" then some .requiresPython
  else none

/-- One step of the correspondence dispatcher: translator entries are
invoked, any other (or unmapped) entry is assigned directly via
`_set_config`. -/
def applyCorresp (ext : Externals) (root : String) (d : Dist) (norm : String)
    (value : Val) : Except PyErr Dist :=
  match (PYPROJECT_CORRESPONDENCE norm).getD (.attr norm) with
  | .attr a => .ok (_set_config d a value)
  | .readme => _long_description ext root d value
  | .licenseFn => _license d value
  | .authors => _people d value "author"
  | .maintainers => _people d value "maintainer"
  | .urls => _project_urls d value
  | .requiresPython => _python_requires ext d value

mutual

/-- Python `repr()` of a value, as used transitively by f-string
rendering of non-string entry-point targets. -/
def pyRepr : Val → String
  | .vstr s => "'" ++ s ++ "'"
  | .vint n => toString n
  | .vbool b => cond b "True" "False"
  | .vlist xs => "[" ++ String.intercalate ", " (pyReprList xs) ++ "]"
  | .vtable t => "\x7b" ++ String.intercalate ", " (pyReprTable t) ++ "\x7d"

/-- Elementwise `repr()` over a list value. -/
def pyReprList : List Val → List String
  | [] => []
  | v :: r => pyRepr v :: pyReprList r

/-- Elementwise `repr()` over a table value. -/
def pyReprTable : List (String × Val) → List String
  | [] => []
  | (k, v) :: r => ("'" ++ k ++ "': " ++ pyRepr v) :: pyReprTable r

end

/-- Python `str()` of a value, as used by the f-string
`f"{k} = {v}"` in `_unify_entry_points`. -/
def pyStr : Val → String
  | .vstr s => s
  | v => pyRepr v

/-- The `renaming` table of `_unify_entry_points`:
`scripts` ↦ `console_scripts`, `gui_scripts` ↦ `gui_scripts`. -/
def renameScripts (norm : String) : Option String :=
  if norm = "scripts" then some "console_scripts"
  else if norm = "gui_scripts" then some "gui_scripts"
  else none

/-- Loop of `_unify_entry_points` over the snapshot
`list(project.items())`: each key normalizing to a script shortcut
with a truthy value is popped from the project copy and assigned into
the entry-points dict (`entry_points[renaming[k]] = project.pop(key)`);
item assignment on a non-dict raises `TypeError` after the pop.
Returns (error?, project copy, entry-points value). -/
def epLoop : List (String × Val) → Table → Val → (Option PyErr) × Table × Val
  | [], pt, ep => (none, pt, ep)
  | (k, v) :: rest, pt, ep =>
    match renameScripts (json_compatible_key k) with
    | some target =>
      if truthy v then
        let pt' := (popKey pt k).2
        match ep with
        | .vtable g => epLoop rest pt' (.vtable (setKey g target v))
        | _ => (some (.typeError "item assignment"), pt', ep)
      else epLoop rest pt ep
    | none => epLoop rest pt ep

/-- Rendering of one entry-point group:
`[f"{k} = {v}" for k, v in group.items()]`. -/
def renderGroup : Val → Except PyErr Val
  | .vtable g => .ok (.vlist (g.map (fun kv => .vstr (kv.1 ++ " = " ++ pyStr kv.2))))
  | _ => .error (.attributeError "items")

/-- Rendering of the canonical multi-group entry-points mapping. -/
def renderGroups : List (String × Val) → Except PyErr Table
  | [] => .ok []
  | (name, g) :: rest =>
    match renderGroup g with
    | .error e => .error e
    | .ok rg =>
      match renderGroups rest with
      | .error e => .error e
      | .ok rs => .ok ((name, rg) :: rs)

/-- Embedding of `_unify_entry_points`.  The source pops
`entry_points` (eagerly-evaluated default) then `entry-points` from
the shallow project copy, merges truthy script shortcuts into the
popped dict, and, when the result is truthy, stores the rendered
multi-group mapping back under `entry-points`.  Because the project
table is a shallow copy, the popped dict is shared with the original
document; the second component reports which original key held it and
its final (possibly mutated) value. -/
def _unify_entry_points (pt : Table) : (Except PyErr Table) × Option (String × Val) :=
  let pUnd := popKey pt "entry_points"
  let pHyp := popKey pUnd.2 "entry-points"
  let ep0 : Val :=
    match pHyp.1 with
    | some v => v
    | none => match pUnd.1 with | some v => v | none => .vtable []
  let origKey : Option String :=
    match pHyp.1 with
    | some _ => some "entry-points"
    | none => match pUnd.1 with | some _ => some "entry_points" | none => none
  let lr := epLoop pHyp.2 pHyp.2 ep0
  match lr.1 with
  | some e => (.error e, origKey.map (fun k => (k, lr.2.2)))
  | none =>
    let pt1 := lr.2.1
    let ep1 := lr.2.2
    if truthy ep1 then
      match ep1 with
      | .vtable groups =>
        match renderGroups groups with
        | .error e => (.error e, origKey.map (fun k => (k, ep1)))
        | .ok rendered =>
          (.ok (setKey pt1 "entry-points" (.vtable rendered)),
            origKey.map (fun k => (k, ep1)))
      | _ => (.error (.attributeError "items"), origKey.map (fun k => (k, ep1)))
    else (.ok pt1, origKey.map (fun k => (k, ep1)))

/-- The `DEFAULT_LICENSE_FILES` glob patterns (defaults from the
`wheel` package, historically used by setuptools). -/
def DEFAULT_LICENSE_FILES : List String :=
  ["LICEN[CS]E*", "COPYING*", "NOTICE*", "AUTHORS*"]

/-- The default glob patterns as a configuration value. -/
def DEFAULT_LICENSE_FILES_VAL : Val :=
  .vlist (DEFAULT_LICENSE_FILES.map .vstr)

/-- Elementwise `json_compatible_key` over list elements (non-string
elements raise, as `k.lower()` does). -/
def jkeyElems : List Val → Except PyErr (List String)
  | [] => .ok []
  | .vstr s :: r =>
    match jkeyElems r with
    | .error e => .error e
    | .ok ks => .ok (json_compatible_key s :: ks)
  | _ :: _ => .error (.attributeError "lower")

/-- Normalized keys of each element of an iterable, modelling
`{json_compatible_key(k) for k in project_table.get("dynamic", [])}`
(iterating a dict yields its keys, iterating a string yields its
characters, non-iterables raise `TypeError`, non-string elements make
`json_compatible_key` raise). -/
def normalizeDynamicList : Val → Except PyErr (List String)
  | .vlist xs => jkeyElems xs
  | .vtable t => .ok (t.map (fun kv => json_compatible_key kv.1))
  | .vstr s => .ok (s.toList.map (fun c => json_compatible_key (String.singleton c)))
  | _ => .error (.typeError "not iterable")

/-- Embedding of `_dynamic_license`.  The normalized dynamic-field set
of the project table is computed first; then the tool table's
`dynamic` sub-dict is fetched (raising `AttributeError` on a missing
or non-dict tool table) and `license_files` is set-defaulted into it
in place — the second component reports the sub-dict's updated value
when the tool table actually held one (the in-place mutation).  When
`license` is declared dynamic, each of `license`/`license_files`
present in the sub-dict is copied into the project table under its
normalized key.  The iteration order of the CPython set intersection
is immaterial because the two possible keys write distinct normalized
target keys; the embedding uses the sub-dict's insertion order. -/
def _dynamic_license (pt : Table) (toolTable : Option Val) :
    (Except PyErr Table) × Option Val :=
  match normalizeDynamicList (tableGetD pt "dynamic" (.vlist [])) with
  | .error e => (.error e, none)
  | .ok dynamic =>
    match toolTable with
    | none => (.error (.attributeError "get of None"), none)
    | some (.vtable tt) =>
      let hadDyn := containsKey tt "dynamic"
      match tableGetD tt "dynamic" (.vtable []) with
      | .vtable dc0 =>
        let dc := setdefaultKey dc0 "license_files" DEFAULT_LICENSE_FILES_VAL
        let dmut := if hadDyn then some (Val.vtable dc) else none
        let keys : List String :=
          if dynamic.contains "license" then
            (dc.map Prod.fst).filter (fun k => k == "license" || k == "license_files")
          else []
        let pt' := keys.foldl
          (fun acc k => setKey acc (json_compatible_key k) (tableGetD dc k (.vtable []))) pt
        (.ok pt', dmut)
      | _ => (.error (.attributeError "setdefault"), none)
    | some _ => (.error (.attributeError "get"), none)

/-- The `TOOL_TABLE_RENAMES` table: `script_files` ↦ `scripts`. -/
def TOOL_TABLE_RENAMES (k : String) : String :=
  if k = "script_files" then "scripts" else k

/-- The tool-table pass of `apply`: direct attribute assignment only,
after normalization and the tool-specific rename. -/
def toolLoop (d : Dist) (tt : Table) : Dist :=
  tt.foldl (fun dd kv => _set_config dd (TOOL_TABLE_RENAMES (json_compatible_key kv.1)) kv.2) d

/-- The declarative-table pass of `apply`: normalize each key, look up
the correspondence and dispatch, in table-iteration order. -/
def projectLoop (ext : Externals) (root : String) : Dist → Table → Except PyErr Dist
  | d, [] => .ok d
  | d, (k, v) :: rest =>
    match applyCorresp ext root d (json_compatible_key k) v with
    | .error e => .error e
    | .ok d' => projectLoop ext root d' rest

/-- In-place update of one command's option table inside the
command-options map. -/
def updCmd : List (String × Table) → String → (Table → Table) → List (String × Table)
  | [], _, _ => []
  | (c, t) :: r, cmd, f =>
    if c = cmd then (c, f t) :: r else (c, t) :: updCmd r cmd f

/-- Modelling `cmd_opts.setdefault(cmd, {})`. -/
def setdefaultCmd (co : List (String × Table)) (cmd : String) : List (String × Table) :=
  if co.any (fun p => p.1 == cmd) then co else co ++ [(cmd, [])]

/-- Inner loop of `_copy_command_options` over one command's config:
record every value under the normalized option key, and append one
warning for each key absent from the command's known-option set. -/
def optLoop (valid : List String) (cmd : String) :
    List (String × Val) → List (String × Table) → List (String × String) →
    (List (String × Table)) × List (String × String)
  | [], co, ws => (co, ws)
  | (k, v) :: rest, co, ws =>
    let key := json_compatible_key k
    let co' := updCmd co cmd (fun t => setKey t key v)
    let ws' := if valid.contains key then ws else ws ++ [(cmd, key)]
    optLoop valid cmd rest co' ws'

/-- Lookup of the known-option set of one command in the
command-options index, modelling `valid_options.get(cmd, set())`. -/
def validOf (vo : List (String × List String)) (cmd : String) : List String :=
  ((vo.find? (fun p => p.1 == cmd)).map Prod.snd).getD []

/-- Outer loop of `_copy_command_options` over
`pyproject["tool"]["distutils"]`. -/
def cmdLoop (validOptions : List (String × List String)) :
    List (String × Val) → List (String × Table) → List (String × String) →
    (Option PyErr) × List (String × Table) × List (String × String)
  | [], co, ws => (none, co, ws)
  | (cRaw, cfgV) :: rest, co, ws =>
    let cmd := json_compatible_key cRaw
    let valid := validOf validOptions cmd
    let co1 := setdefaultCmd co cmd
    match cfgV with
    | .vtable entries =>
      let r := optLoop valid cmd entries co1 ws
      cmdLoop validOptions rest r.1 r.2
    | _ => (some (.attributeError "items"), co1, ws)

/-- Embedding of `_copy_command_options`: fetch `cmdclass` from
`tool.setuptools`, build the command-options index through the
external collaborator (`_valid_command_options` scans plugin entry
points and `Distribution.global_options`, neither under src/), then
record every per-command option under its normalized names, warning
(non-fatally) on options absent from the index. -/
def _copy_command_options (ext : Externals) (cfg : Table) (d : Dist) :
    Except PyErr (Dist × List (String × String)) :=
  match tableGetD cfg "tool" (.vtable []) with
  | .vtable tool =>
    match tableGetD tool "setuptools" (.vtable []) with
    | .vtable st =>
      let cmdclass := tableGetD st "cmdclass" (.vtable [])
      let validOptions := ext.validCmdOptions cmdclass
      match tableGetD tool "distutils" (.vtable []) with
      | .vtable dcmds =>
        let r := cmdLoop validOptions dcmds d.command_options []
        match r.1 with
        | some e => .error e
        | none => .ok ({ d with command_options := r.2.1 }, r.2.2)
      | _ => .error (.attributeError "items")
    | _ => .error (.attributeError "get")
  | _ => .error (.attributeError "get")

/-- Modelling `config.get("tool", {}).get("setuptools")`:
`AttributeError` when the `tool` value is not a table, otherwise the
optional `setuptools` value (`None` ↦ `none`). -/
def getToolSetuptools (cfg : Table) : Except PyErr (Option Val) :=
  match tableGetD cfg "tool" (.vtable []) with
  | .vtable tool => .ok (tableGet? tool "setuptools")
  | _ => .error (.attributeError "get")

/-- Write-back of the entry-points mutation into the original
document: the popped entry-points dict is shared between the shallow
project copy and the original project table, so its final value
replaces the original binding. -/
def applyEpMut (cfg : Table) (m : Option (String × Val)) : Table :=
  match m with
  | none => cfg
  | some (k, v) =>
    match tableGet? cfg "project" with
    | some (.vtable p) => setKey cfg "project" (.vtable (setKey p k v))
    | _ => cfg

/-- Write-back of the `dynamic` sub-dict mutation performed by the
in-place `setdefault` of `_dynamic_license` into the original
document. -/
def applyDynMut (cfg : Table) (m : Option Val) : Table :=
  match m with
  | none => cfg
  | some dv =>
    match tableGet? cfg "tool" with
    | some (.vtable tool) =>
      match tableGet? tool "setuptools" with
      | some (.vtable st) =>
        setKey cfg "tool" (.vtable (setKey tool "setuptools" (.vtable (setKey st "dynamic" dv))))
      | _ => cfg
    | _ => cfg

/-- The field-assignment portion of `apply` (everything before the
finalize hooks): tool-table fetch, shallow project copy, entry-point
unification, dynamic-license resolution, the two dispatch loops and
the command-option copy.  Returns the result, the configuration
document as left by the in-place mutations, and the warnings emitted
by the tool-options validator. -/
def applyFields (ext : Externals) (d0 : Dist) (cfg : Table) (root : String) :
    (Except PyErr Dist) × Table × List (String × String) :=
  match getToolSetuptools cfg with
  | .error e => (.error e, cfg, [])
  | .ok toolTable =>
    match tableGet? cfg "project" with
    | none => (.error (.attributeError "copy of None"), cfg, [])
    | some (.vtable pt0) =>
      let ur := _unify_entry_points pt0
      let cfg1 := applyEpMut cfg ur.2
      match ur.1 with
      | .error e => (.error e, cfg1, [])
      | .ok pt1 =>
        let dr := _dynamic_license pt1 toolTable
        let cfg2 := applyDynMut cfg1 dr.2
        match dr.1 with
        | .error e => (.error e, cfg2, [])
        | .ok pt2 =>
          match projectLoop ext root d0 pt2 with
          | .error e => (.error e, cfg2, [])
          | .ok d1 =>
            match toolTable with
            | some (.vtable tt0) =>
              let tt := match dr.2 with
                | some dv => setKey tt0 "dynamic" dv
                | none => tt0
              let d2 := toolLoop d1 tt
              match _copy_command_options ext cfg2 d2 with
              | .error e => (.error e, cfg2, [])
              | .ok (d3, ws) => (.ok d3, cfg2, ws)
            | _ => (.error (.attributeError "items"), cfg2, [])
    | some _ => (.error (.typeError "project not a table"), cfg, [])

/-- Full outcome of one invocation of the translation pass. -/
structure ApplyOut where
  result : Except PyErr Dist
  config : Table
  cwd : String
  warnings : List (String × String)

/-- Embedding of `apply`: the field-assignment pass followed by the
finalize hooks, which run after `os.getcwd()`/`os.chdir(root_dir)` and
whose `try`/`finally` restores the saved working directory on both the
success and the failure path.  `cwd0` models the process working
directory at call time; the hooks receive and may move the working
directory, and the `finally` write-back is rendered explicitly on
every exit path of the hook section. -/
def apply (ext : Externals) (d0 : Dist) (cfg : Table) (root : String) (cwd0 : String) :
    ApplyOut :=
  match applyFields ext d0 cfg root with
  | (.error e, cfg', ws) => { result := .error e, config := cfg', cwd := cwd0, warnings := ws }
  | (.ok d, cfg', ws) =>
    match ext.fin1 d root with
    | (.error e, _) => { result := .error e, config := cfg', cwd := cwd0, warnings := ws }
    | (.ok d1, c1) =>
      match ext.fin2 d1 c1 with
      | (.error e, _) => { result := .error e, config := cfg', cwd := cwd0, warnings := ws }
      | (.ok d2, _) => { result := .ok d2, config := cfg', cwd := cwd0, warnings := ws }

/-- Sample instance of the external collaborators, used to evaluate
the translation pass on concrete documents: a one-file filesystem, an
identity specifier parser, a small command-options index and finalize
hooks that leave the model and working directory unchanged. -/
def sampleExternals : Externals where
  readFiles := fun v _ =>
    match v with
    | .vstr s => if s = "README.rst" then .ok "FILE-CONTENTS" else .error (.typeError "no file")
    | _ => .error (.typeError "no file")
  specParse := fun v => .ok v
  validCmdOptions := fun _ =>
    [("build", ["build_base", "build_lib"]), ("global", ["verbose", "dry_run"])]
  fin1 := fun d c => (.ok d, c)
  fin2 := fun d c => (.ok d, c)

theorem tableGet?_setKey_self (t : Table) (k : String) (v : Val) :
    tableGet? (setKey t k v) k = some v := by
  induction t with
  | nil => simp [setKey, tableGet?]
  | cons p r ih =>
    obtain ⟨k', v'⟩ := p
    by_cases h : k' = k
    · simp [setKey, h, tableGet?]
    · simp [setKey, h, tableGet?, ih]

theorem tableGet?_setKey_ne (t : Table) (k k' : String) (v : Val) (h : k' ≠ k) :
    tableGet? (setKey t k v) k' = tableGet? t k' := by
  induction t with
  | nil => simp [setKey, tableGet?, h, Ne.symm h]
  | cons p r ih =>
    obtain ⟨k0, v0⟩ := p
    by_cases h0 : k0 = k
    · subst h0
      simp [setKey, tableGet?, Ne.symm h]
    · by_cases h1 : k0 = k'
      · simp [setKey, h0, tableGet?, h1, h, Ne.symm h]
      · simp [setKey, h0, tableGet?, h1, ih]

theorem setKey_setKey (t : Table) (k : String) (v v' : Val) :
    setKey (setKey t k v) k v' = setKey t k v' := by
  induction t with
  | nil => simp [setKey]
  | cons p r ih =>
    obtain ⟨k0, v0⟩ := p
    by_cases h : k0 = k
    · simp [setKey, h]
    · simp [setKey, h, ih]

theorem setKey_same (t : Table) (k : String) (v : Val) (h : tableGet? t k = some v) :
    setKey t k v = t := by
  induction t with
  | nil => simp [tableGet?] at h
  | cons p r ih =>
    obtain ⟨k0, v0⟩ := p
    by_cases h0 : k0 = k
    · subst h0
      simp [tableGet?] at h
      simp [setKey, h]
    · simp [tableGet?, h0] at h
      simp [setKey, h0, ih h]

theorem popKey_of_get_none (t : Table) (k : String) (h : tableGet? t k = none) :
    popKey t k = (none, t) := by
  induction t with
  | nil => simp [popKey]
  | cons p r ih =>
    obtain ⟨k0, v0⟩ := p
    by_cases h0 : k0 = k
    · simp [tableGet?, h0] at h
    · simp [tableGet?, h0] at h
      simp [popKey, h0, ih h]

theorem tableGet?_popKey_ne (t : Table) (k k' : String) (h : k' ≠ k) :
    tableGet? (popKey t k).2 k' = tableGet? t k' := by
  induction t with
  | nil => simp [popKey]
  | cons p r ih =>
    obtain ⟨k0, v0⟩ := p
    by_cases h0 : k0 = k
    · subst h0
      simp [popKey, tableGet?, Ne.symm h]
    · by_cases h1 : k0 = k'
      · simp [popKey, h0, tableGet?, h1, h, Ne.symm h]
      · simp [popKey, h0, tableGet?, h1, ih]

theorem popKey_setKey_of_contains (t : Table) (k : String) (v : Val)
    (h : containsKey t k = true) :
    popKey (setKey t k v) k = (some v, (popKey t k).2) := by
  induction t with
  | nil => simp [containsKey, tableGet?] at h
  | cons p r ih =>
    obtain ⟨k0, v0⟩ := p
    by_cases h0 : k0 = k
    · simp [setKey, h0, popKey]
    · simp [containsKey, tableGet?, h0] at h
      simp [setKey, h0, popKey, ih h]

theorem popKey_setKey_ne (t : Table) (k k' : String) (v : Val) (h : k' ≠ k) :
    popKey (setKey t k v) k' = ((popKey t k').1, setKey (popKey t k').2 k v) := by
  induction t with
  | nil => simp [setKey, popKey, Ne.symm h]
  | cons p r ih =>
    obtain ⟨k0, v0⟩ := p
    by_cases h0 : k0 = k
    · subst h0
      simp [setKey, popKey, Ne.symm h, ih]
    · by_cases h1 : k0 = k'
      · simp [setKey, h0, popKey, h1, h, Ne.symm h]
      · simp [setKey, h0, popKey, h1, ih]

theorem containsKey_setKey_self (t : Table) (k : String) (v : Val) :
    containsKey (setKey t k v) k = true := by
  simp [containsKey, tableGet?_setKey_self]

theorem setKey_comm (t : Table) (k k2 : String) (v v2 : Val)
    (hc : containsKey t k = true) (hne : k ≠ k2) :
    setKey (setKey t k v) k2 v2 = setKey (setKey t k2 v2) k v := by
  induction t with
  | nil => simp [containsKey, tableGet?] at hc
  | cons p r ih =>
    obtain ⟨k0, v0⟩ := p
    by_cases h0 : k0 = k
    · subst h0
      simp [setKey, hne, Ne.symm hne]
    · by_cases h1 : k0 = k2
      · subst h1
        simp [containsKey, tableGet?, h0] at hc
        simp [setKey, h0, Ne.symm hne]
      · simp [containsKey, tableGet?, h0] at hc
        simp [setKey, h0, h1, ih hc]

/-- Sequential in-place assignments, as performed by the script-merge
loop on the shared entry-points dict. -/
def foldSet (g : Table) (a : List (String × Val)) : Table :=
  a.foldl (fun g p => setKey g p.1 p.2) g

theorem foldSet_nil (g : Table) : foldSet g [] = g := rfl

theorem foldSet_cons (g : Table) (p : String × Val) (a : List (String × Val)) :
    foldSet g (p :: a) = foldSet (setKey g p.1 p.2) a := rfl

theorem containsKey_foldSet (g : Table) (a : List (String × Val)) (k : String)
    (h : containsKey g k = true) : containsKey (foldSet g a) k = true := by
  induction a generalizing g with
  | nil => simpa [foldSet] using h
  | cons p r ih =>
    rw [foldSet_cons]
    by_cases h0 : p.1 = k
    · exact ih _ (h0 ▸ containsKey_setKey_self g p.1 p.2)
    · refine ih _ ?_
      simpa [containsKey, tableGet?_setKey_ne g p.1 k p.2 (Ne.symm h0)] using h

theorem tableGet?_foldSet_of_not_mem (g : Table) (a : List (String × Val)) (k : String)
    (h : ∀ p ∈ a, p.1 ≠ k) : tableGet? (foldSet g a) k = tableGet? g k := by
  induction a generalizing g with
  | nil => simp [foldSet]
  | cons p r ih =>
    rw [foldSet_cons]
    rw [ih _ (fun q hq => h q (List.mem_cons_of_mem p hq))]
    exact tableGet?_setKey_ne g p.1 k p.2 (Ne.symm (h p (List.mem_cons_self p r)))

theorem foldSet_absorb (x : Table) (a : List (String × Val)) (k : String) (v : Val)
    (hc : containsKey x k = true) (hk : k ∈ a.map Prod.fst) :
    foldSet (setKey x k v) a = foldSet x a := by
  induction a generalizing x v with
  | nil => simp at hk
  | cons p r ih =>
    obtain ⟨k2, v2⟩ := p
    rw [foldSet_cons, foldSet_cons]
    by_cases h0 : k2 = k
    · subst h0
      rw [setKey_setKey]
    · have hk' : k ∈ r.map Prod.fst := by
        simpa [h0, Ne.symm h0] using hk
      rw [setKey_comm x k k2 v v2 hc (fun h => h0 h.symm)]
      refine ih (setKey x k2 v2) v ?_ hk'
      by_cases hx : k2 = k
      · exact absurd hx h0
      · simpa [containsKey, tableGet?_setKey_ne x k2 k v2 (Ne.symm h0)] using hc

theorem foldSet_foldSet (g : Table) (a : List (String × Val)) :
    foldSet (foldSet g a) a = foldSet g a := by
  induction a generalizing g with
  | nil => rfl
  | cons p r ih =>
    obtain ⟨k, v⟩ := p
    rw [foldSet_cons, foldSet_cons]
    by_cases hk : k ∈ r.map Prod.fst
    · rw [foldSet_absorb (foldSet (setKey g k v) r) r k v
        (containsKey_foldSet _ _ _ (containsKey_setKey_self g k v)) hk]
      exact ih (setKey g k v)
    · have hg : tableGet? (foldSet (setKey g k v) r) k = some v := by
        rw [tableGet?_foldSet_of_not_mem _ _ _ (fun p hp h => hk (by rw [← h]; exact List.mem_map_of_mem Prod.fst hp))]
        exact tableGet?_setKey_self g k v
      rw [setKey_same _ _ _ hg]
      exact ih (setKey g k v)

/-- Claim C1, counterexample: for the plain-string readme value
`"README.rst"` under a filesystem mapping that path to
`"FILE-CONTENTS"`, the translator stores the file contents, not the
string itself, so the description text is not the string verbatim. -/
theorem pyproject_c1_counterexample :
    ((_long_description sampleExternals "." dist0 (.vstr "README.rst")).map
      (fun d => getField d "long_description")) = .ok (some (.vstr "FILE-CONTENTS")) ∧
    ((_long_description sampleExternals "." dist0 (.vstr "README.rst")).map
      (fun d => getField d "long_description_content_type")) =
      .ok (some (.vstr "text/x-rst")) ∧
    Val.vstr "FILE-CONTENTS" ≠ Val.vstr "README.rst" :=
  ⟨rfl, rfl, fun h => absurd (Val.vstr.inj h) (by decide)⟩

/-- Claim C1, amended: for every readme value that is a plain string,
the readme translator sets the long-description content-type to the
fixed default `text/x-rst` and sets the description text to the result
of the file-expansion collaborator applied to that string — the string
is treated as a file path, not as inline text. -/
theorem pyproject_c1 (ext : Externals) (root : String) (d : Dist) (s t : String)
    (h : ext.readFiles (.vstr s) root = .ok t) :
    _long_description ext root d (.vstr s) =
      .ok (_set_config (_set_config d "long_description" (.vstr t))
        "long_description_content_type" (.vstr "text/x-rst")) := by
  simp only [_long_description]
  rw [h]

/-- Witness for `pyproject_c1` at the sample filesystem. -/
theorem pyproject_c1_witness :
    sampleExternals.readFiles (.vstr "README.rst") "." = .ok "FILE-CONTENTS" ∧
    _long_description sampleExternals "." dist0 (.vstr "README.rst") =
      .ok (_set_config (_set_config dist0 "long_description" (.vstr "FILE-CONTENTS"))
        "long_description_content_type" (.vstr "text/x-rst")) :=
  ⟨rfl, pyproject_c1 sampleExternals "." dist0 "README.rst" "FILE-CONTENTS" rfl⟩

/-- Claim C4, counterexample: a structured readme value using `text`
with no `content-type` key makes the translator fail with `KeyError`
(from `val["content-type"]`), which is not the configuration-kind
error the claim requires. -/
theorem pyproject_c4_counterexample :
    _long_description sampleExternals "." dist0 (.vtable [("text", .vstr "hello")]) =
      .error (.keyError "content-type") ∧
    (PyErr.keyError "content-type").isConfigErr = false :=
  ⟨rfl, rfl⟩

/-- Claim C4, amended: for every structured readme value lacking the
`content-type` key, whenever the body resolution (the `text`-or-`file`
step) succeeds, the readme translator fails with a `KeyError` naming
`content-type` — a plain dictionary-lookup error, not a
`ConfigurationError`. -/
theorem pyproject_c4 (ext : Externals) (root : String) (d : Dist) (t : Table) (b : Val)
    (hct : tableGet? t "content-type" = none)
    (hb : readmeBody (fun v => ext.readFiles v root) t = .ok b) :
    _long_description ext root d (.vtable t) = .error (.keyError "content-type") := by
  simp only [_long_description]
  rw [hb, hct]

/-- Witness for `pyproject_c4` at a concrete text-only readme table. -/
theorem pyproject_c4_witness :
    tableGet? [("text", Val.vstr "hello")] "content-type" = none ∧
    readmeBody (fun v => sampleExternals.readFiles v ".") [("text", Val.vstr "hello")] =
      .ok (.vstr "hello") ∧
    _long_description sampleExternals "." dist0 (.vtable [("text", .vstr "hello")]) =
      .error (.keyError "content-type") :=
  ⟨rfl, rfl, pyproject_c4 sampleExternals "." dist0 [("text", .vstr "hello")]
    (.vstr "hello") rfl rfl⟩

/-- Claim C6: the working directory recorded after the translation
pass equals the one before it, on every exit path — the `finally`
write-back restores it whether the field pass fails, a finalize hook
fails, or everything succeeds. -/
theorem pyproject_c6 (ext : Externals) (d0 : Dist) (cfg : Table) (root cwd0 : String) :
    (apply ext d0 cfg root cwd0).cwd = cwd0 := by
  unfold apply
  rcases hf : applyFields ext d0 cfg root with ⟨r, cfg', ws⟩
  rcases r with e | d
  · rfl
  · rcases h1 : ext.fin1 d root with ⟨r1, c1⟩
    rcases r1 with e1 | d1
    · simp [h1]
    · rcases h2 : ext.fin2 d1 c1 with ⟨r2, c2⟩
      rcases r2 with e2 | d2 <;> simp [h1, h2]

/-- Concrete document for the dynamic-license resolution property:
`dynamic = ["license"]` in the project table and an empty
`tool.setuptools` table. -/
def cfgC3 : Table :=
  [("project", .vtable [("name", .vstr "pkg"), ("version", .vstr "1.0"),
      ("dynamic", .vlist [.vstr "license"])]),
   ("tool", .vtable [("setuptools", .vtable [])])]

/-- Claim C3: for every project table declaring `dynamic = ["license"]`
and an empty tool table (no `dynamic` sub-table), dynamic-license
resolution stores the four default glob patterns, in order, under
`license_files` in the project table (and performs no tool-table
mutation); consequently the field-assignment pass sets the model's
`license_files` to exactly those four patterns, as witnessed on the
concrete document for every choice of externals. -/
theorem pyproject_c3 (pt : Table)
    (h : tableGet? pt "dynamic" = some (.vlist [.vstr "license"])) :
    _dynamic_license pt (some (.vtable [])) =
      (.ok (setKey pt "license_files" DEFAULT_LICENSE_FILES_VAL), none) ∧
    tableGet? (setKey pt "license_files" DEFAULT_LICENSE_FILES_VAL) "license_files" =
      some DEFAULT_LICENSE_FILES_VAL ∧
    (∀ ext : Externals,
      ((applyFields ext dist0 cfgC3 ".").1.map (fun d => getField d "license_files")) =
        .ok (some DEFAULT_LICENSE_FILES_VAL)) := by
  have hd : tableGetD pt "dynamic" (.vlist []) = .vlist [.vstr "license"] := by
    simp [tableGetD, h]
  refine ⟨?_, tableGet?_setKey_self pt "license_files" DEFAULT_LICENSE_FILES_VAL,
    fun ext => rfl⟩
  unfold _dynamic_license
  rw [hd]
  rfl

/-- Witness for `pyproject_c3` at a one-field project table. -/
theorem pyproject_c3_witness :
    tableGet? [("dynamic", Val.vlist [.vstr "license"])] "dynamic" =
      some (.vlist [.vstr "license"]) ∧
    _dynamic_license [("dynamic", Val.vlist [.vstr "license"])] (some (.vtable [])) =
      (.ok (setKey [("dynamic", Val.vlist [.vstr "license"])] "license_files"
        DEFAULT_LICENSE_FILES_VAL), none) ∧
    ((applyFields sampleExternals dist0 cfgC3 ".").1.map
      (fun d => getField d "license_files")) = .ok (some DEFAULT_LICENSE_FILES_VAL) :=
  ⟨rfl, (pyproject_c3 [("dynamic", Val.vlist [.vstr "license"])] rfl).1,
    (pyproject_c3 [("dynamic", Val.vlist [.vstr "license"])] rfl).2.2 sampleExternals⟩

theorem urlFold_get_of_skip (t : Table) (d : Dist) (f : String)
    (h : ∀ p ∈ t, urlTarget p.1 ≠ f) :
    getField (t.foldl (fun dd kv => _set_config dd (urlTarget kv.1) kv.2) d) f =
      getField d f := by
  induction t generalizing d with
  | nil => rfl
  | cons p r ih =>
    rw [List.foldl_cons]
    rw [ih _ (fun q hq => h q (List.mem_cons_of_mem p hq))]
    exact tableGet?_setKey_ne d.fields (urlTarget p.1) f p.2
      (fun hh => h p (List.mem_cons_self p r) hh.symm)

theorem urlFold_get (t : Table) (d : Dist) (k : String) (url : Val)
    (hk : tableGet? t k = some url)
    (hnodup : (t.map Prod.fst).Nodup)
    (htgt : urlTarget k = "url")
    (honly : ∀ p ∈ t, p.1 ≠ k → urlTarget p.1 ≠ "url") :
    getField (t.foldl (fun dd kv => _set_config dd (urlTarget kv.1) kv.2) d) "url" =
      some url := by
  induction t generalizing d with
  | nil => simp [tableGet?] at hk
  | cons p r ih =>
    obtain ⟨k0, v0⟩ := p
    rw [List.foldl_cons]
    by_cases h0 : k0 = k
    · subst h0
      simp only [tableGet?, if_pos rfl] at hk
      injection hk with hk
      subst hk
      have hskip : ∀ p ∈ r, urlTarget p.1 ≠ "url" := by
        intro q hq
        by_cases hq0 : q.1 = k0
        · exfalso
          rw [List.map_cons, List.nodup_cons] at hnodup
          exact hnodup.1 (List.mem_map.mpr ⟨q, hq, hq0⟩)
        · exact honly q (List.mem_cons_of_mem _ hq) hq0
      rw [urlFold_get_of_skip r _ _ hskip]
      simp only [htgt, _set_config, getField]
      exact tableGet?_setKey_self d.fields "url" v0
    · simp only [tableGet?, if_neg h0] at hk
      rw [List.map_cons, List.nodup_cons] at hnodup
      exact ih _ hk hnodup.2 (fun q hq => honly q (List.mem_cons_of_mem _ hq))

/-- Claim C7: for every project-URL mapping containing a key whose
normalized (case- and separator-insensitive) form is `homepage`, and
no other entry that would target the primary URL field, the URL
translator sets the model's primary URL field (`url`) to that key's
value, while the raw mapping stored under `project_urls` is the input
mapping verbatim — the original key spelling and value included. -/
theorem pyproject_c7 (d : Dist) (t : Table) (k : String) (url : Val)
    (hk : tableGet? t k = some url)
    (hhome : urlNorm k = "homepage")
    (hnodup : (t.map Prod.fst).Nodup)
    (honly : ∀ p ∈ t, p.1 ≠ k → urlTarget p.1 ≠ "url") :
    ∃ d', _project_urls d (.vtable t) = .ok d' ∧
      getField d' "url" = some url ∧
      getField d' "project_urls" = some (.vtable t) ∧
      tableGet? t k = some url := by
  have htgt : urlTarget k = "url" := by
    unfold urlTarget
    rw [hhome]
    rfl
  refine ⟨_, rfl, ?_, ?_, hk⟩
  · show getField (_set_config _ "project_urls" (.vtable t)) "url" = some url
    unfold _set_config getField
    rw [tableGet?_setKey_ne _ "project_urls" "url" _ (by decide)]
    exact urlFold_get t d k url hk hnodup htgt honly
  · exact tableGet?_setKey_self _ "project_urls" (.vtable t)

/-- Witness for `pyproject_c7` at the mapping with the single key
`Home-Page`. -/
theorem pyproject_c7_witness :
    tableGet? [("Home-Page", Val.vstr "https://x.example")] "Home-Page" =
      some (.vstr "https://x.example") ∧
    urlNorm "Home-Page" = "homepage" ∧
    (∃ d', _project_urls dist0 (.vtable [("Home-Page", Val.vstr "https://x.example")]) = .ok d' ∧
      getField d' "url" = some (.vstr "https://x.example") ∧
      getField d' "project_urls" =
        some (.vtable [("Home-Page", Val.vstr "https://x.example")]) ∧
      tableGet? [("Home-Page", Val.vstr "https://x.example")] "Home-Page" =
        some (.vstr "https://x.example")) :=
  ⟨rfl, rfl, pyproject_c7 dist0 [("Home-Page", Val.vstr "https://x.example")]
    "Home-Page" (.vstr "https://x.example") rfl rfl (by simp)
    (fun p hp hne => absurd (by
      rw [List.mem_singleton] at hp
      rw [hp]) hne)⟩

/-- Well-formedness of one person record as schema validation
guarantees it: a table whose `name`/`email` entries, when present, are
strings, with at least one of the two present. -/
def wfPerson : Val → Bool
  | .vtable t =>
    match tableGet? t "name", tableGet? t "email" with
    | some (.vstr _), none => true
    | none, some (.vstr _) => true
    | some (.vstr _), some (.vstr _) => true
    | _, _ => false
  | _ => false

/-- Token a person contributes to the plain-name field: only a person
with a name and no email contributes, and it contributes the bare
name. -/
def personName? : Val → Option String
  | .vtable t =>
    match tableGet? t "name", tableGet? t "email" with
    | some (.vstr n), none => some n
    | _, _ => none
  | _ => none

/-- Token a person contributes to the email field: a person with only
an email contributes the bare address, a person with both contributes
the single formatted `display name <address>` token. -/
def personEmail? : Val → Option String
  | .vtable t =>
    match tableGet? t "name", tableGet? t "email" with
    | none, some (.vstr e) => some e
    | some (.vstr n), some (.vstr e) => some (formatAddr n e)
    | _, _ => none
  | _ => none

theorem collectPeople_eq (ps : List Val) (h : ∀ p ∈ ps, wfPerson p = true) :
    collectPeople ps = .ok (ps.filterMap personName?, ps.filterMap personEmail?) := by
  induction ps with
  | nil => rfl
  | cons p rest ih =>
    have hp := h p (List.mem_cons_self p rest)
    have hrest := ih (fun q hq => h q (List.mem_cons_of_mem p hq))
    match hv : p with
    | .vtable t =>
      rcases hn : tableGet? t "name" with _ | nv
      · rcases he : tableGet? t "email" with _ | ev
        · simp [wfPerson, hn, he] at hp
        · rcases ev with e | i | b | l | tb
          · simp only [collectPeople, hn, he, hrest]
            simp [personName?, personEmail?, hn, he]
          all_goals simp [wfPerson, hn, he] at hp
      · rcases he : tableGet? t "email" with _ | ev
        · rcases nv with n | i | b | l | tb
          · simp only [collectPeople, hn, he, hrest]
            simp [personName?, personEmail?, hn, he]
          all_goals simp [wfPerson, hn, he] at hp
        · rcases nv with n | i | b | l | tb <;> rcases ev with e | i2 | b2 | l2 | tb2
          all_goals first
          | (simp only [collectPeople, hn, he, hrest]
             simp [personName?, personEmail?, hn, he]
             done)
          | simp [wfPerson, hn, he] at hp
    | .vstr sv => simp [wfPerson] at hp
    | .vint iv => simp [wfPerson] at hp
    | .vbool bv => simp [wfPerson] at hp
    | .vlist lv => simp [wfPerson] at hp

/-- Concrete end-to-end document of the spec: one author with both
name and email, empty tool table. -/
def cfgC2 : Table :=
  [("project", .vtable [("name", .vstr "pkg"), ("version", .vstr "1.0"),
      ("authors", .vlist [.vtable [("name", .vstr "A"), ("email", .vstr "a@x.com")]])]),
   ("tool", .vtable [("setuptools", .vtable [])])]

/-- Claim C2: in every translated person list, a person with both name
and email contributes exactly the one formatted `display name
<address>` token to the email field and nothing to the plain-name
field, a name-only person contributes only to the plain-name field,
and an email-only person contributes the bare address to the email
field (characterized by `personName?`/`personEmail?`); and on the
concrete end-to-end document the resulting model has `name = "pkg"`,
`version = "1.0"`, `author = ""` and `author_email = "A <a@x.com>"`,
for every choice of externals. -/
theorem pyproject_c2 :
    (∀ ps : List Val, (∀ p ∈ ps, wfPerson p = true) →
      collectPeople ps = .ok (ps.filterMap personName?, ps.filterMap personEmail?)) ∧
    (∀ ext : Externals,
      ((applyFields ext dist0 cfgC2 ".").1.map
        (fun d => (getStr d "name", getStr d "version", getStr d "author",
          getStr d "author_email"))) = .ok ("pkg", "1.0", "", "A <a@x.com>")) :=
  ⟨collectPeople_eq, fun _ => rfl⟩

/-- Witness for `pyproject_c2` at a mixed two-person list and the
sample externals. -/
theorem pyproject_c2_witness :
    collectPeople
      [.vtable [("name", .vstr "A")],
       .vtable [("name", .vstr "B"), ("email", .vstr "b@x")],
       .vtable [("email", .vstr "c@x")]] =
      .ok (["A"], ["B <b@x>", "c@x"]) ∧
    ((applyFields sampleExternals dist0 cfgC2 ".").1.map
      (fun d => (getStr d "name", getStr d "version", getStr d "author",
        getStr d "author_email"))) = .ok ("pkg", "1.0", "", "A <a@x.com>") :=
  ⟨pyproject_c2.1
    [.vtable [("name", .vstr "A")],
     .vtable [("name", .vstr "B"), ("email", .vstr "b@x")],
     .vtable [("email", .vstr "c@x")]]
    (by
      intro p hp
      simp only [List.mem_cons, List.not_mem_nil, or_false] at hp
      rcases hp with h | h | h <;> subst h <;> rfl),
   pyproject_c2.2 sampleExternals⟩

/-- Lookup in the command-options map (`dist.command_options[cmd]`). -/
def cmdGet? : List (String × Table) → String → Option Table
  | [], _ => none
  | (c, t) :: r, cmd => if c = cmd then some t else cmdGet? r cmd

/-- Warnings produced while recording one command: one per option
whose normalized key is absent from the known-option set. -/
def wsOf (valid : List String) (cmd : String) (entries : List (String × Val)) :
    List (String × String) :=
  entries.filterMap (fun p =>
    if json_compatible_key p.1 ∈ valid then none
    else some (cmd, json_compatible_key p.1))

theorem wsOf_cons (valid : List String) (cmd : String) (p : String × Val)
    (rest : List (String × Val)) :
    wsOf valid cmd (p :: rest) =
      (if json_compatible_key p.1 ∈ valid then wsOf valid cmd rest
       else (cmd, json_compatible_key p.1) :: wsOf valid cmd rest) := by
  unfold wsOf
  rw [List.filterMap_cons]
  by_cases hc : json_compatible_key p.1 ∈ valid <;> simp [hc]

theorem optLoop_ws (valid : List String) (cmd : String) (entries : List (String × Val))
    (co : List (String × Table)) (ws : List (String × String)) :
    (optLoop valid cmd entries co ws).2 = ws ++ wsOf valid cmd entries := by
  induction entries generalizing co ws with
  | nil => simp [optLoop, wsOf]
  | cons p rest ih =>
    obtain ⟨k, v⟩ := p
    by_cases hc : json_compatible_key k ∈ valid
    · simp [optLoop, hc, ih, wsOf]
    · simp [optLoop, hc, ih, wsOf]

theorem cmdGet?_updCmd (co : List (String × Table)) (cmd : String) (f : Table → Table) :
    cmdGet? (updCmd co cmd f) cmd = (cmdGet? co cmd).map f := by
  induction co with
  | nil => simp [updCmd, cmdGet?]
  | cons p r ih =>
    obtain ⟨c, t⟩ := p
    by_cases h : c = cmd
    · simp [updCmd, h, cmdGet?]
    · simp [updCmd, h, cmdGet?, ih]

theorem cmdGet?_updCmd_ne (co : List (String × Table)) (cmd cmd' : String)
    (f : Table → Table) (h : cmd' ≠ cmd) :
    cmdGet? (updCmd co cmd f) cmd' = cmdGet? co cmd' := by
  induction co with
  | nil => simp [updCmd]
  | cons p r ih =>
    obtain ⟨c, t⟩ := p
    by_cases h0 : c = cmd
    · subst h0
      simp [updCmd, cmdGet?, Ne.symm h]
    · by_cases h1 : c = cmd'
      · simp [updCmd, h0, cmdGet?, h1, h, Ne.symm h]
      · simp [updCmd, h0, cmdGet?, h1, ih]

theorem cmdGet?_setdefaultCmd_self (co : List (String × Table)) (cmd : String) :
    cmdGet? (setdefaultCmd co cmd) cmd = some ((cmdGet? co cmd).getD []) := by
  induction co with
  | nil => simp [setdefaultCmd, cmdGet?]
  | cons p r ih =>
    obtain ⟨c, t⟩ := p
    by_cases h : c = cmd
    · simp [setdefaultCmd, cmdGet?, h]
    · have hbe : (c == cmd) = false := by simp [h]
      simp only [setdefaultCmd, List.any_cons, hbe, Bool.false_or] at ih ⊢
      by_cases hr : r.any (fun p => p.1 == cmd) = true
      · simpa [setdefaultCmd, hr, cmdGet?, h] using ih
      · simp only [Bool.not_eq_true] at hr
        simpa [setdefaultCmd, hr, cmdGet?, h] using ih

theorem cmdGet?_setdefaultCmd_ne (co : List (String × Table)) (cmd cmd' : String)
    (h : cmd' ≠ cmd) :
    cmdGet? (setdefaultCmd co cmd) cmd' = cmdGet? co cmd' := by
  unfold setdefaultCmd
  by_cases hc : co.any (fun p => p.1 == cmd) = true
  · simp [hc]
  · simp only [Bool.not_eq_true] at hc
    simp only [hc]
    induction co with
    | nil => simp [cmdGet?, Ne.symm h]
    | cons p r ih =>
      obtain ⟨c, t⟩ := p
      simp only [List.any_cons, Bool.or_eq_false_iff] at hc
      by_cases h1 : c = cmd'
      · simp [cmdGet?, h1]
      · simp only [cmdGet?, h1, if_neg h1]
        exact ih hc.2

theorem optLoop_cmdGet (valid : List String) (cmd : String) (entries : List (String × Val))
    (co : List (String × Table)) (ws : List (String × String)) (t0 : Table)
    (h : cmdGet? co cmd = some t0) :
    cmdGet? (optLoop valid cmd entries co ws).1 cmd =
      some (foldSet t0 (entries.map (fun p => (json_compatible_key p.1, p.2)))) := by
  induction entries generalizing co ws t0 with
  | nil => simpa [optLoop, foldSet] using h
  | cons p rest ih =>
    obtain ⟨k, v⟩ := p
    have h' : cmdGet? (updCmd co cmd (fun t => setKey t (json_compatible_key k) v)) cmd =
        some (setKey t0 (json_compatible_key k) v) := by
      rw [cmdGet?_updCmd]
      rw [h]
      rfl
    simp only [optLoop]
    rw [ih _ _ _ h']
    rfl

theorem optLoop_cmdGet_ne (valid : List String) (cmd cmd' : String)
    (entries : List (String × Val)) (co : List (String × Table))
    (ws : List (String × String)) (h : cmd' ≠ cmd) :
    cmdGet? (optLoop valid cmd entries co ws).1 cmd' = cmdGet? co cmd' := by
  induction entries generalizing co ws with
  | nil => rfl
  | cons p rest ih =>
    obtain ⟨k, v⟩ := p
    simp only [optLoop]
    rw [ih]
    exact cmdGet?_updCmd_ne co cmd cmd' _ h

theorem foldSet_get_of_mem_nodup (k : String) (v : Val) :
    ∀ a : List (String × Val), (k, v) ∈ a → (a.map Prod.fst).Nodup →
    ∀ g : Table, tableGet? (foldSet g a) k = some v := by
  intro a
  induction a with
  | nil => intro h _ _; simp at h
  | cons p rest ih =>
    intro hmem hnodup g
    obtain ⟨k0, v0⟩ := p
    rw [List.map_cons, List.nodup_cons] at hnodup
    rcases List.mem_cons.mp hmem with h | h
    · injection h with h1 h2
      subst h1; subst h2
      rw [foldSet_cons]
      rw [tableGet?_foldSet_of_not_mem _ _ _
        (fun q hq hh => hnodup.1 (List.mem_map.mpr ⟨q, hq, hh⟩))]
      exact tableGet?_setKey_self g k v
    · rw [foldSet_cons]
      exact ih h hnodup.2 _

theorem wsOf_fst (valid : List String) (cmd : String) (entries : List (String × Val)) :
    ∀ w ∈ wsOf valid cmd entries, w.1 = cmd := by
  intro w hw
  rcases List.mem_filterMap.mp hw with ⟨p, hp, hpe⟩
  by_cases hc : json_compatible_key p.1 ∈ valid
  · simp [hc] at hpe
  · rw [if_neg hc] at hpe
    injection hpe with hpe
    rw [← hpe]

theorem wsOf_count (valid : List String) (cmd k : String) (v : Val) :
    ∀ entries : List (String × Val), (k, v) ∈ entries →
    (entries.map (fun p => json_compatible_key p.1)).Nodup →
    (wsOf valid cmd entries).count (cmd, json_compatible_key k) =
      (if json_compatible_key k ∈ valid then 0 else 1) := by
  intro entries
  induction entries with
  | nil => intro hkv _; simp at hkv
  | cons p rest ih =>
    intro hkv hnodup
    obtain ⟨k0, v0⟩ := p
    rw [List.map_cons, List.nodup_cons] at hnodup
    rcases List.mem_cons.mp hkv with h | h
    · injection h with h1 h2
      subst h1; subst h2
      have hrest : (wsOf valid cmd rest).count (cmd, json_compatible_key k) = 0 := by
        rw [List.count_eq_zero]
        intro hmem
        rcases List.mem_filterMap.mp hmem with ⟨q, hq, hqe⟩
        by_cases hc : json_compatible_key q.1 ∈ valid
        · simp [hc] at hqe
        · rw [if_neg hc] at hqe
          injection hqe with hqe
          exact hnodup.1 (List.mem_map.mpr ⟨q, hq, congrArg Prod.snd hqe⟩)
      rw [wsOf_cons]
      by_cases hc : json_compatible_key k ∈ valid
      · rw [if_pos hc, if_pos hc]
        exact hrest
      · rw [if_neg hc, if_neg hc]
        rw [List.count_cons]
        rw [hrest]
        simp
    · have hk0 : json_compatible_key k ≠ json_compatible_key k0 := by
        intro hh
        exact hnodup.1 (List.mem_map.mpr ⟨(k, v), h, by simpa using hh⟩)
      rw [wsOf_cons]
      by_cases hc0 : json_compatible_key k0 ∈ valid
      · rw [if_pos hc0]
        exact ih h hnodup.2
      · rw [if_neg hc0]
        rw [List.count_cons]
        rw [ih h hnodup.2]
        simp [beq_iff_eq, Ne.symm hk0]

theorem wsOf_count_ne (valid : List String) (cmd : String) (entries : List (String × Val))
    (jc jk : String) (h : cmd ≠ jc) : (wsOf valid cmd entries).count (jc, jk) = 0 :=
  List.count_eq_zero.mpr (fun hm => h ((wsOf_fst valid cmd entries _ hm).symm ▸ rfl))

theorem cmdLoop_other (vo : List (String × List String)) (jc jk : String) :
    ∀ dcmds : List (String × Val), (∀ p ∈ dcmds, ∃ e, p.2 = Val.vtable e) →
    (∀ p ∈ dcmds, json_compatible_key p.1 ≠ jc) →
    ∀ co ws,
      (cmdLoop vo dcmds co ws).1 = none ∧
      cmdGet? (cmdLoop vo dcmds co ws).2.1 jc = cmdGet? co jc ∧
      (cmdLoop vo dcmds co ws).2.2.count (jc, jk) = ws.count (jc, jk) := by
  intro dcmds
  induction dcmds with
  | nil => intro _ _ co ws; exact ⟨rfl, rfl, rfl⟩
  | cons p rest ih =>
    intro hsane hne co ws
    obtain ⟨cRaw, cfgV⟩ := p
    obtain ⟨e0, he0⟩ := hsane _ (List.mem_cons_self _ _)
    simp only at he0
    subst he0
    have hcne : json_compatible_key cRaw ≠ jc := hne _ (List.mem_cons_self _ _)
    simp only [cmdLoop]
    have hr := ih (fun q hq => hsane q (List.mem_cons_of_mem _ hq))
      (fun q hq => hne q (List.mem_cons_of_mem _ hq))
      (optLoop (validOf vo (json_compatible_key cRaw)) (json_compatible_key cRaw) e0
        (setdefaultCmd co (json_compatible_key cRaw)) ws).1
      (optLoop (validOf vo (json_compatible_key cRaw)) (json_compatible_key cRaw) e0
        (setdefaultCmd co (json_compatible_key cRaw)) ws).2
    refine ⟨hr.1, ?_, ?_⟩
    · rw [hr.2.1]
      rw [optLoop_cmdGet_ne _ _ _ _ _ _ (fun hh => hcne hh.symm)]
      exact cmdGet?_setdefaultCmd_ne co _ jc (fun hh => hcne hh.symm)
    · rw [hr.2.2]
      rw [optLoop_ws]
      rw [List.count_append]
      rw [wsOf_count_ne _ _ _ _ _ hcne]
      exact Nat.add_zero _

theorem cmdLoop_main (vo : List (String × List String)) (c : String)
    (entries : List (String × Val)) (k : String) (v : Val)
    (hkeys : (entries.map (fun p => json_compatible_key p.1)).Nodup)
    (hkv : (k, v) ∈ entries) :
    ∀ dcmds : List (String × Val), (∀ p ∈ dcmds, ∃ e, p.2 = Val.vtable e) →
    (dcmds.map (fun p => json_compatible_key p.1)).Nodup →
    (c, Val.vtable entries) ∈ dcmds →
    ∀ co ws,
      (cmdLoop vo dcmds co ws).1 = none ∧
      (∃ t, cmdGet? (cmdLoop vo dcmds co ws).2.1 (json_compatible_key c) = some t ∧
        tableGet? t (json_compatible_key k) = some v) ∧
      (cmdLoop vo dcmds co ws).2.2.count (json_compatible_key c, json_compatible_key k) =
        ws.count (json_compatible_key c, json_compatible_key k) +
        (if json_compatible_key k ∈ validOf vo (json_compatible_key c) then 0 else 1) := by
  intro dcmds
  induction dcmds with
  | nil => intro _ _ hmem; simp at hmem
  | cons p rest ih =>
    intro hsane hcmds hmem co ws
    obtain ⟨cRaw, cfgV⟩ := p
    rw [List.map_cons, List.nodup_cons] at hcmds
    rcases List.mem_cons.mp hmem with hh | hh
    · injection hh with h1 h2
      subst h1; subst h2
      simp only [cmdLoop]
      have hsd := cmdGet?_setdefaultCmd_self co (json_compatible_key c)
      have hog := optLoop_cmdGet (validOf vo (json_compatible_key c))
        (json_compatible_key c) entries (setdefaultCmd co (json_compatible_key c)) ws _ hsd
      have hws := optLoop_ws (validOf vo (json_compatible_key c)) (json_compatible_key c)
        entries (setdefaultCmd co (json_compatible_key c)) ws
      have hrest_ne : ∀ q ∈ rest, json_compatible_key q.1 ≠ json_compatible_key c :=
        fun q hq hqe => hcmds.1 (List.mem_map.mpr ⟨q, hq, hqe⟩)
      have hrs := cmdLoop_other vo (json_compatible_key c) (json_compatible_key k) rest
        (fun q hq => hsane q (List.mem_cons_of_mem _ hq)) hrest_ne
        (optLoop (validOf vo (json_compatible_key c)) (json_compatible_key c) entries
          (setdefaultCmd co (json_compatible_key c)) ws).1
        (optLoop (validOf vo (json_compatible_key c)) (json_compatible_key c) entries
          (setdefaultCmd co (json_compatible_key c)) ws).2
      refine ⟨hrs.1, ⟨foldSet ((cmdGet? co (json_compatible_key c)).getD [])
        (entries.map (fun p => (json_compatible_key p.1, p.2))), ?_, ?_⟩, ?_⟩
      · rw [hrs.2.1]
        exact hog
      · refine foldSet_get_of_mem_nodup (json_compatible_key k) v _ ?_ ?_ _
        · exact List.mem_map.mpr ⟨(k, v), hkv, rfl⟩
        · have : (entries.map (fun p => ((json_compatible_key p.1 : String), p.2))).map Prod.fst =
              entries.map (fun p => json_compatible_key p.1) := by
            rw [List.map_map]
            rfl
          rw [this]
          exact hkeys
      · rw [hrs.2.2]
        rw [hws]
        rw [List.count_append]
        rw [wsOf_count (validOf vo (json_compatible_key c)) (json_compatible_key c) k v
          entries hkv hkeys]
    · obtain ⟨e0, he0⟩ := hsane _ (List.mem_cons_self _ _)
      simp only at he0
      subst he0
      have hcne : json_compatible_key cRaw ≠ json_compatible_key c := by
        intro hqe
        exact hcmds.1 (List.mem_map.mpr ⟨(c, .vtable entries), hh, hqe.symm⟩)
      simp only [cmdLoop]
      have hr := ih (fun q hq => hsane q (List.mem_cons_of_mem _ hq)) hcmds.2 hh
        (optLoop (validOf vo (json_compatible_key cRaw)) (json_compatible_key cRaw) e0
          (setdefaultCmd co (json_compatible_key cRaw)) ws).1
        (optLoop (validOf vo (json_compatible_key cRaw)) (json_compatible_key cRaw) e0
          (setdefaultCmd co (json_compatible_key cRaw)) ws).2
      refine ⟨hr.1, hr.2.1, ?_⟩
      rw [hr.2.2]
      rw [optLoop_ws]
      rw [List.count_append]
      rw [wsOf_count_ne _ _ _ _ _ hcne]
      rw [Nat.add_zero]

/-- Concrete document of the spec example: an unknown option
`tool.distutils.build.bogus_flag = 1` next to a valid project table. -/
def cfgC5 : Table :=
  [("project", .vtable [("name", .vstr "pkg"), ("version", .vstr "1.0")]),
   ("tool", .vtable [("setuptools", .vtable []),
     ("distutils", .vtable [("build", .vtable [("bogus_flag", .vint 1)])])])]

/-- Claim C5: for every `(command, option, value)` triple of the
tool-specific per-command overrides table, the validator records the
value in the command-options map under the normalized command and
option names regardless of whether the option is known, and the
warning list contains exactly one warning for that pair if and only if
the normalized option is absent from the known-option set of that
command; on the concrete spec example the field pass still completes,
returns a model with `build.bogus_flag` recorded, and emits exactly
the one warning. -/
theorem pyproject_c5 :
    (∀ (ext : Externals) (cfg tool st dcmds entries : Table) (d : Dist)
       (c k : String) (v : Val),
      tableGetD cfg "tool" (.vtable []) = .vtable tool →
      tableGetD tool "setuptools" (.vtable []) = .vtable st →
      tableGetD tool "distutils" (.vtable []) = .vtable dcmds →
      (∀ p ∈ dcmds, ∃ e, p.2 = Val.vtable e) →
      (dcmds.map (fun p => json_compatible_key p.1)).Nodup →
      (c, Val.vtable entries) ∈ dcmds →
      (entries.map (fun p => json_compatible_key p.1)).Nodup →
      (k, v) ∈ entries →
      ∃ d' ws, _copy_command_options ext cfg d = .ok (d', ws) ∧
        (∃ t, cmdGet? d'.command_options (json_compatible_key c) = some t ∧
          tableGet? t (json_compatible_key k) = some v) ∧
        ws.count (json_compatible_key c, json_compatible_key k) =
          (if json_compatible_key k ∈
              validOf (ext.validCmdOptions (tableGetD st "cmdclass" (.vtable [])))
                (json_compatible_key c)
           then 0 else 1)) ∧
    ((applyFields sampleExternals dist0 cfgC5 ".").1.map
        (fun d => cmdGet? d.command_options "build") =
      .ok (some [("bogus_flag", .vint 1)]) ∧
     (applyFields sampleExternals dist0 cfgC5 ".").2.2 = [("build", "bogus_flag")]) := by
  constructor
  · intro ext cfg tool st dcmds entries d c k v htool hst hdist hsane hcmds hmem hkeys hkv
    have hm := cmdLoop_main (ext.validCmdOptions (tableGetD st "cmdclass" (.vtable [])))
      c entries k v hkeys hkv dcmds hsane hcmds hmem d.command_options []
    unfold _copy_command_options
    simp only [htool, hst, hdist]
    rw [hm.1]
    exact ⟨_, _, rfl, hm.2.1, by simpa using hm.2.2⟩
  · exact ⟨rfl, rfl⟩

/-- Witness for `pyproject_c5` at the spec example document. -/
theorem pyproject_c5_witness :
    ∃ d' ws, _copy_command_options sampleExternals cfgC5 dist0 = .ok (d', ws) ∧
      (∃ t, cmdGet? d'.command_options (json_compatible_key "build") = some t ∧
        tableGet? t (json_compatible_key "bogus_flag") = some (.vint 1)) ∧
      ws.count (json_compatible_key "build", json_compatible_key "bogus_flag") =
        (if json_compatible_key "bogus_flag" ∈
            validOf (sampleExternals.validCmdOptions (tableGetD [] "cmdclass" (.vtable [])))
              (json_compatible_key "build")
         then 0 else 1) :=
  pyproject_c5.1 sampleExternals cfgC5
    [("setuptools", .vtable []),
     ("distutils", .vtable [("build", .vtable [("bogus_flag", .vint 1)])])]
    [] [("build", .vtable [("bogus_flag", .vint 1)])] [("bogus_flag", .vint 1)]
    dist0 "build" "bogus_flag" (.vint 1) rfl rfl rfl
    (by
      intro p hp
      rw [List.mem_singleton] at hp
      exact ⟨[("bogus_flag", .vint 1)], by rw [hp]⟩)
    (by simp)
    (List.mem_singleton.mpr rfl)
    (by simp)
    (List.mem_singleton.mpr rfl)

theorem epLoop_err (snap : List (String × Val)) :
    ∀ pt ep e, (epLoop snap pt ep).1 = some e → e.isConfigErr = false := by
  induction snap with
  | nil => intro pt ep e h; simp [epLoop] at h
  | cons p rest ih =>
    intro pt ep e h
    obtain ⟨k, v⟩ := p
    rcases hr : renameScripts (json_compatible_key k) with _ | tgt
    · simp only [epLoop, hr] at h
      exact ih _ _ _ h
    · simp only [epLoop, hr] at h
      by_cases ht : truthy v = true
      · rw [if_pos ht] at h
        rcases ep with sv | iv | bv | lv | gv
        · injection h with h; rw [← h]; rfl
        · injection h with h; rw [← h]; rfl
        · injection h with h; rw [← h]; rfl
        · injection h with h; rw [← h]; rfl
        · exact ih _ _ _ h
      · rw [if_neg ht] at h
        exact ih _ _ _ h

theorem renderGroups_err (gs : List (String × Val)) :
    ∀ e, renderGroups gs = .error e → e.isConfigErr = false := by
  induction gs with
  | nil => intro e h; simp [renderGroups] at h
  | cons p rest ih =>
    intro e h
    obtain ⟨name, g⟩ := p
    rcases g with sv | iv | bv | lv | gv
    all_goals simp only [renderGroups, renderGroup] at h
    · injection h with h; rw [← h]; rfl
    · injection h with h; rw [← h]; rfl
    · injection h with h; rw [← h]; rfl
    · injection h with h; rw [← h]; rfl
    · rcases hrg : renderGroups rest with e2 | rs
      · rw [hrg] at h
        injection h with h
        rw [← h]
        exact ih _ hrg
      · rw [hrg] at h
        simp at h

theorem unify_err (pt : Table) (e : PyErr)
    (h : (_unify_entry_points pt).1 = .error e) : e.isConfigErr = false := by
  unfold _unify_entry_points at h
  simp only at h
  split at h
  · rename_i e1 hl
    simp only at h
    injection h with h
    rw [← h]
    exact epLoop_err _ _ _ _ hl
  · rename_i hl
    split at h
    · split at h
      · rename_i groups
        split at h
        · rename_i e2 hrg
          simp only at h
          injection h with h
          rw [← h]
          exact renderGroups_err _ _ hrg
        · simp at h
      all_goals simp only at h
      all_goals injection h with h
      all_goals rw [← h]
      all_goals rfl
    · simp at h

theorem jkeyElems_err (xs : List Val) :
    ∀ e, jkeyElems xs = .error e → e.isConfigErr = false := by
  induction xs with
  | nil => intro e h; simp [jkeyElems] at h
  | cons x rest ih =>
    intro e h
    rcases x with sv | iv | bv | lv | gv
    · simp only [jkeyElems] at h
      rcases hr : jkeyElems rest with e2 | ks
      · rw [hr] at h
        injection h with h
        rw [← h]
        exact ih _ hr
      · rw [hr] at h
        simp at h
    all_goals simp only [jkeyElems] at h
    all_goals injection h with h
    all_goals rw [← h]
    all_goals rfl

theorem normalizeDynamicList_err (v : Val) (e : PyErr)
    (h : normalizeDynamicList v = .error e) : e.isConfigErr = false := by
  rcases v with sv | iv | bv | lv | gv
  · simp [normalizeDynamicList] at h
  · simp only [normalizeDynamicList] at h
    injection h with h; rw [← h]; rfl
  · simp only [normalizeDynamicList] at h
    injection h with h; rw [← h]; rfl
  · exact jkeyElems_err _ _ h
  · simp [normalizeDynamicList] at h

theorem dynamicLicense_none (pt : Table) :
    ∃ e, (_dynamic_license pt none).1 = .error e ∧ e.isConfigErr = false := by
  unfold _dynamic_license
  rcases hn : normalizeDynamicList (tableGetD pt "dynamic" (.vlist [])) with e | ks
  · exact ⟨e, rfl, normalizeDynamicList_err _ _ hn⟩
  · exact ⟨.attributeError "get of None", rfl, rfl⟩

/-- Failure with an error that is not a configuration-kind error. -/
def failsNonConfig (r : Except PyErr Dist) : Prop :=
  ∃ e, r = .error e ∧ e.isConfigErr = false

theorem getTool_err (cfg : Table) (e : PyErr) (h : getToolSetuptools cfg = .error e) :
    e.isConfigErr = false := by
  unfold getToolSetuptools at h
  rcases hv : tableGetD cfg "tool" (.vtable []) with sv | iv | bv | lv | gv
  all_goals rw [hv] at h
  · injection h with h; rw [← h]; rfl
  · injection h with h; rw [← h]; rfl
  · injection h with h; rw [← h]; rfl
  · injection h with h; rw [← h]; rfl
  · simp at h

theorem applyFields_missing (ext : Externals) (d0 : Dist) (cfg : Table) (root : String)
    (h : tableGet? cfg "project" = none ∨ getToolSetuptools cfg = .ok none) :
    failsNonConfig (applyFields ext d0 cfg root).1 := by
  unfold applyFields
  rcases hts : getToolSetuptools cfg with e | tt
  · exact ⟨e, rfl, getTool_err cfg e hts⟩
  · simp only
    rcases hp : tableGet? cfg "project" with _ | pv
    · exact ⟨.attributeError "copy of None", rfl, rfl⟩
    · have htt : tt = none := by
        rcases h with h | h
        · rw [hp] at h
          exact absurd h (by simp)
        · rw [hts] at h
          injection h
      subst htt
      rcases pv with sv | iv | bv | lv | gv
      · exact ⟨.typeError "project not a table", rfl, rfl⟩
      · exact ⟨.typeError "project not a table", rfl, rfl⟩
      · exact ⟨.typeError "project not a table", rfl, rfl⟩
      · exact ⟨.typeError "project not a table", rfl, rfl⟩
      · simp only
        rcases hu : (_unify_entry_points gv).1 with e1 | pt1
        · exact ⟨e1, by simp only [hu], unify_err _ _ hu⟩
        · obtain ⟨e2, he2, hk2⟩ := dynamicLicense_none pt1
          exact ⟨e2, by simp only [hu, he2], hk2⟩

/-- Claim C10: for every document lacking the `project` table or
lacking a `tool.setuptools` sub-table, the translation pass fails with
a plain Python error (a `None` value is dereferenced, or a shape error
on the way there), never a configuration-kind error, and no model is
returned; hence a populated model is produced only when both tables
are present (even if `setuptools` is empty). -/
theorem pyproject_c10 (ext : Externals) (d0 : Dist) (cfg : Table) (root cwd0 : String)
    (h : tableGet? cfg "project" = none ∨ getToolSetuptools cfg = .ok none) :
    failsNonConfig (apply ext d0 cfg root cwd0).result := by
  obtain ⟨e, he, hk⟩ := applyFields_missing ext d0 cfg root h
  unfold apply
  rcases hf : applyFields ext d0 cfg root with ⟨r, cfg2, ws⟩
  rw [hf] at he
  simp only at he
  subst he
  exact ⟨e, rfl, hk⟩

/-- Witness for `pyproject_c10` at a document with no `project` table
and at a document whose `tool` table lacks `setuptools`. -/
theorem pyproject_c10_witness :
    failsNonConfig (apply sampleExternals dist0
      [("tool", .vtable [("setuptools", .vtable [])])] "." "/").result ∧
    failsNonConfig (apply sampleExternals dist0
      [("project", .vtable [("name", .vstr "p")])] "." "/").result :=
  ⟨pyproject_c10 sampleExternals dist0 _ "." "/" (Or.inl rfl),
   pyproject_c10 sampleExternals dist0 _ "." "/" (Or.inr rfl)⟩

/-- Reads `cfg["tool"]["setuptools"]["dynamic"]` when the chain of
tables exists. -/
def toolDynamicOf (cfg : Table) : Option Val :=
  match tableGet? cfg "tool" with
  | some (.vtable tool) =>
    match tableGet? tool "setuptools" with
    | some (.vtable st) => tableGet? st "dynamic"
    | _ => none
  | _ => none

/-- Reads `cfg["project"]["entry-points"]` when present. -/
def projectEpOf (cfg : Table) : Option Val :=
  match tableGet? cfg "project" with
  | some (.vtable p) => tableGet? p "entry-points"
  | _ => none

/-- Concrete document exhibiting both in-place mutations: an explicit
entry-points table next to a scripts shortcut, and an empty `dynamic`
sub-table in the tool table. -/
def cfgC8 : Table :=
  [("project", .vtable [("name", .vstr "pkg"),
      ("entry-points", .vtable [("grp", .vtable [("a", .vstr "m:f")])]),
      ("scripts", .vtable [("cli", .vstr "m:main")])]),
   ("tool", .vtable [("setuptools", .vtable [("dynamic", .vtable [])])])]

/-- Claim C8, counterexample: after `apply`, the tool table's
`dynamic` sub-table has gained the default `license_files` entry (the
in-place `setdefault`), and the project table's entry-points sub-table
has gained the `console_scripts` group (merged through the shallow
copy), so the configuration document is not equal to its pre-call
contents. -/
theorem pyproject_c8_counterexample :
    toolDynamicOf cfgC8 = some (.vtable []) ∧
    toolDynamicOf (apply sampleExternals dist0 cfgC8 "." "/").config =
      some (.vtable [("license_files", DEFAULT_LICENSE_FILES_VAL)]) ∧
    projectEpOf cfgC8 = some (.vtable [("grp", .vtable [("a", .vstr "m:f")])]) ∧
    projectEpOf (apply sampleExternals dist0 cfgC8 "." "/").config =
      some (.vtable [("grp", .vtable [("a", .vstr "m:f")]),
        ("console_scripts", .vtable [("cli", .vstr "m:main")])]) ∧
    (apply sampleExternals dist0 cfgC8 "." "/").config ≠ cfgC8 := by
  refine ⟨rfl, rfl, rfl, rfl, fun hcontra => ?_⟩
  have h2 : toolDynamicOf (apply sampleExternals dist0 cfgC8 "." "/").config =
      toolDynamicOf cfgC8 := by rw [hcontra]
  rw [show toolDynamicOf (apply sampleExternals dist0 cfgC8 "." "/").config =
    some (.vtable [("license_files", DEFAULT_LICENSE_FILES_VAL)]) from rfl] at h2
  rw [show toolDynamicOf cfgC8 = some (.vtable []) from rfl] at h2
  injection h2 with h2
  exact absurd (Val.vtable.inj h2) (by simp)

theorem unify_mut_none (pt : Table)
    (h1 : tableGet? pt "entry_points" = none)
    (h2 : tableGet? pt "entry-points" = none) :
    (_unify_entry_points pt).2 = none := by
  unfold _unify_entry_points
  rw [popKey_of_get_none pt "entry_points" h1]
  simp only
  rw [popKey_of_get_none pt "entry-points" h2]
  simp only
  split
  · simp
  · split
    · split
      · split <;> simp
      · simp
    · simp

theorem dynamicLicense_mut_none (pt : Table) (tt? : Option Val)
    (h : ∀ tt, tt? = some (.vtable tt) → tableGet? tt "dynamic" = none) :
    (_dynamic_license pt tt?).2 = none := by
  unfold _dynamic_license
  split
  · rfl
  · rcases tt? with _ | tv
    · rfl
    · rcases tv with sv | iv | bv | lv | gv
      · simp
      · simp
      · simp
      · simp
      · have hd := h gv rfl
        simp [tableGetD, hd, containsKey]

/-- True when the project table (if present as a table) has neither
`entry-points` nor `entry_points` key, so no entry-points dict is
shared with the original document. -/
def noEpKeysB (cfg : Table) : Bool :=
  match tableGet? cfg "project" with
  | some (.vtable pt) => !(containsKey pt "entry-points") && !(containsKey pt "entry_points")
  | _ => true

/-- True when `tool.setuptools` (if present as a table) has no
`dynamic` sub-table, so the in-place `setdefault` has nothing to
mutate. -/
def noToolDynB (cfg : Table) : Bool :=
  match getToolSetuptools cfg with
  | .ok (some (.vtable tt)) => !(containsKey tt "dynamic")
  | _ => true

theorem containsKey_false_iff (t : Table) (k : String) :
    containsKey t k = false ↔ tableGet? t k = none := by
  unfold containsKey
  rcases tableGet? t k with _ | v <;> simp

theorem apply_config (ext : Externals) (d0 : Dist) (cfg : Table) (root cwd0 : String) :
    (apply ext d0 cfg root cwd0).config = (applyFields ext d0 cfg root).2.1 := by
  unfold apply
  rcases hf : applyFields ext d0 cfg root with ⟨r, c2, ws⟩
  rcases r with e | d
  · rfl
  · rcases h1 : ext.fin1 d root with ⟨r1, c1⟩
    rcases r1 with e1 | d1
    · simp [h1]
    · rcases h2 : ext.fin2 d1 c1 with ⟨r2, c2x⟩
      rcases r2 with e2 | d2 <;> simp [h1, h2]

theorem applyFields_config_unchanged (ext : Externals) (d0 : Dist) (cfg : Table)
    (root : String) (hep : noEpKeysB cfg = true) (hdyn : noToolDynB cfg = true) :
    (applyFields ext d0 cfg root).2.1 = cfg := by
  unfold applyFields
  rcases hts : getToolSetuptools cfg with e | tt?
  · rfl
  · simp only
    rcases hp : tableGet? cfg "project" with _ | pv
    · rfl
    · rcases pv with sv | iv | bv | lv | gv
      · rfl
      · rfl
      · rfl
      · rfl
      · simp only
        have hepb : containsKey gv "entry-points" = false ∧
            containsKey gv "entry_points" = false := by
          unfold noEpKeysB at hep
          rw [hp] at hep
          simpa [Bool.and_eq_true, Bool.not_eq_true'] using hep
        have hepn : (_unify_entry_points gv).2 = none :=
          unify_mut_none gv ((containsKey_false_iff _ _).mp hepb.2)
            ((containsKey_false_iff _ _).mp hepb.1)
        have hdynn : ∀ pt1, (_dynamic_license pt1 tt?).2 = none := by
          intro pt1
          apply dynamicLicense_mut_none
          intro tt htt
          unfold noToolDynB at hdyn
          rw [hts, htt] at hdyn
          exact (containsKey_false_iff _ _).mp
            (by simpa [Bool.not_eq_true'] using hdyn)
        simp only [hepn, hdynn]
        simp only [applyEpMut, applyDynMut]
        split
        · rfl
        · split
          · rfl
          · split
            · rfl
            · split
              · split
                · rfl
                · rfl
              · rfl

/-- Claim C8, amended: the translation pass leaves the configuration
document unchanged whenever the project table has no
`entry-points`/`entry_points` key and the tool table has no `dynamic`
sub-table; in general the pass mutates the document exactly through
those two shared sub-tables — the `dynamic` sub-table (when present)
gains the default `license_files` entry, and an existing entry-points
table gains the script-shortcut groups (see the counterexample). -/
theorem pyproject_c8 (ext : Externals) (d0 : Dist) (cfg : Table) (root cwd0 : String)
    (hep : noEpKeysB cfg = true) (hdyn : noToolDynB cfg = true) :
    (apply ext d0 cfg root cwd0).config = cfg := by
  rw [apply_config]
  exact applyFields_config_unchanged ext d0 cfg root hep hdyn

/-- Witness for `pyproject_c8` at the end-to-end sample document. -/
theorem pyproject_c8_witness :
    noEpKeysB cfgC2 = true ∧ noToolDynB cfgC2 = true ∧
    (apply sampleExternals dist0 cfgC2 "." "/").config = cfgC2 :=
  ⟨rfl, rfl, pyproject_c8 sampleExternals dist0 cfgC2 "." "/" rfl rfl⟩

theorem popKey_fst (t : Table) (k : String) : (popKey t k).1 = tableGet? t k := by
  induction t with
  | nil => rfl
  | cons p r ih =>
    obtain ⟨k0, v0⟩ := p
    by_cases h : k0 = k
    · simp [popKey, tableGet?, h]
    · simp [popKey, tableGet?, h, ih]

/-- Script-shortcut assignments merged into the entry-points dict by
the unify loop, in iteration order. -/
def scriptAssigns (snap : List (String × Val)) : List (String × Val) :=
  snap.filterMap (fun p =>
    (renameScripts (json_compatible_key p.1)).bind
      (fun tgt => if truthy p.2 then some (tgt, p.2) else none))

/-- Keys popped from the project copy by the unify loop. -/
def popScripts : List (String × Val) → Table → Table
  | [], pt => pt
  | (k, v) :: rest, pt =>
    match renameScripts (json_compatible_key k) with
    | some _ => if truthy v then popScripts rest (popKey pt k).2 else popScripts rest pt
    | none => popScripts rest pt

theorem epLoop_table (snap : List (String × Val)) :
    ∀ pt g, epLoop snap pt (.vtable g) =
      (none, popScripts snap pt, .vtable (foldSet g (scriptAssigns snap))) := by
  induction snap with
  | nil => intro pt g; rfl
  | cons p rest ih =>
    intro pt g
    obtain ⟨k, v⟩ := p
    rcases hr : renameScripts (json_compatible_key k) with _ | tgt
    · simp only [epLoop, hr, popScripts, scriptAssigns, List.filterMap_cons, Option.bind]
      rw [ih]
      rfl
    · by_cases ht : truthy v = true
      · simp [epLoop, hr, ht, popScripts, scriptAssigns, List.filterMap_cons, ih, foldSet_cons]
      · simp [epLoop, hr, ht, popScripts, scriptAssigns, List.filterMap_cons, ih]

theorem epLoop_nontable (snap : List (String × Val)) :
    ∀ pt ep, (∀ g, ep ≠ .vtable g) → (epLoop snap pt ep).2.2 = ep := by
  induction snap with
  | nil => intro pt ep _; rfl
  | cons p rest ih =>
    intro pt ep h
    obtain ⟨k, v⟩ := p
    rcases hr : renameScripts (json_compatible_key k) with _ | tgt
    · simp only [epLoop, hr]
      exact ih _ _ h
    · by_cases ht : truthy v = true
      · rcases ep with sv | iv | bv | lv | gv
        · simp [epLoop, hr, ht]
        · simp [epLoop, hr, ht]
        · simp [epLoop, hr, ht]
        · simp [epLoop, hr, ht]
        · exact absurd rfl (h gv)
      · simp only [epLoop, hr]
        rw [if_neg ht]
        exact ih _ _ h

theorem epLoop_stable (snap : List (String × Val)) (pt : Table) (ep : Val) :
    epLoop snap pt ((epLoop snap pt ep).2.2) = epLoop snap pt ep := by
  rcases ep with sv | iv | bv | lv | g
  · rw [epLoop_nontable snap pt _ (fun g h => by injection h)]
  · rw [epLoop_nontable snap pt _ (fun g h => by injection h)]
  · rw [epLoop_nontable snap pt _ (fun g h => by injection h)]
  · rw [epLoop_nontable snap pt _ (fun g h => by injection h)]
  · rw [epLoop_table snap pt g]
    simp only
    rw [epLoop_table snap pt (foldSet g (scriptAssigns snap))]
    rw [foldSet_foldSet]

/-- The entry-points mutation applied to the project table itself. -/
def ptEpMut (pt : Table) (m : Option (String × Val)) : Table :=
  match m with
  | some kw => setKey pt kw.1 kw.2
  | none => pt

/-- Which original key supplied the entry-points dict. -/
def origKeyOf (u1 h1' : Option Val) : Option String :=
  match h1' with
  | some _ => some "entry-points"
  | none => match u1 with | some _ => some "entry_points" | none => none

/-- The entry-points dict popped by `_unify_entry_points`. -/
def ep0Of (u1 h1' : Option Val) : Val :=
  match h1' with
  | some v => v
  | none => match u1 with | some v => v | none => .vtable []

theorem unify_snd (pt : Table) (u1 h1' : Option Val) (u2 h2' : Table)
    (hU : popKey pt "entry_points" = (u1, u2))
    (hH : popKey u2 "entry-points" = (h1', h2')) :
    (_unify_entry_points pt).2 =
      (origKeyOf u1 h1').map
        (fun k => (k, (epLoop h2' h2' (ep0Of u1 h1')).2.2)) := by
  unfold _unify_entry_points
  rw [hU]
  simp only
  rw [hH]
  simp only
  split
  · rfl
  · split
    · split
      · split
        · rfl
        · rfl
      · rfl
    · rfl

theorem unify_stable (pt : Table) :
    _unify_entry_points (ptEpMut pt (_unify_entry_points pt).2) = _unify_entry_points pt := by
  rcases hU : popKey pt "entry_points" with ⟨u1, u2⟩
  rcases hH : popKey u2 "entry-points" with ⟨h1', h2'⟩
  have hsnd := unify_snd pt u1 h1' u2 h2' hU hH
  rcases h1' with _ | v0
  · rcases u1 with _ | w0
    · rw [hsnd]
      rfl
    · rw [hsnd]
      have hc : containsKey pt "entry_points" = true := by
        have hf := popKey_fst pt "entry_points"
        rw [hU] at hf
        simp [containsKey, ← hf]
      have hgNone : tableGet? u2 "entry-points" = none := by
        have hf := popKey_fst u2 "entry-points"
        rw [hH] at hf
        exact hf.symm
      have h2eq : h2' = u2 := by
        have hpn := popKey_of_get_none u2 "entry-points" hgNone
        rw [hH] at hpn
        exact congrArg Prod.snd hpn
      subst h2eq
      show _unify_entry_points (setKey pt "entry_points" (epLoop h2' h2' w0).2.2) =
        _unify_entry_points pt
      unfold _unify_entry_points
      rw [popKey_setKey_of_contains pt "entry_points" _ hc]
      rw [hU]
      simp only
      rw [hH]
      simp only
      rw [epLoop_stable]
  · rw [hsnd]
    show _unify_entry_points (setKey pt "entry-points" (epLoop h2' h2' v0).2.2) =
      _unify_entry_points pt
    have hcH : containsKey u2 "entry-points" = true := by
      have hf := popKey_fst u2 "entry-points"
      rw [hH] at hf
      simp [containsKey, ← hf]
    unfold _unify_entry_points
    rw [popKey_setKey_ne pt "entry-points" "entry_points" _ (by decide)]
    rw [hU]
    simp only
    rw [popKey_setKey_of_contains u2 "entry-points" _ hcH]
    rw [hH]
    simp only
    rw [epLoop_stable]

theorem tableGet?_append_right (t : Table) (k : String) (v : Val)
    (h : tableGet? t k = none) : tableGet? (t ++ [(k, v)]) k = some v := by
  induction t with
  | nil => simp [tableGet?]
  | cons p r ih =>
    obtain ⟨k0, v0⟩ := p
    by_cases h0 : k0 = k
    · simp [tableGet?, h0] at h
    · simp only [tableGet?, h0, if_neg h0] at h ⊢
      exact ih h

theorem containsKey_setdefaultKey_self (t : Table) (k : String) (v : Val) :
    containsKey (setdefaultKey t k v) k = true := by
  unfold setdefaultKey
  by_cases h : containsKey t k = true
  · simp [h]
  · simp only [Bool.not_eq_true] at h
    rw [h]
    simp only [Bool.false_eq_true, if_false]
    unfold containsKey at h ⊢
    rcases hg : tableGet? t k with _ | w
    · rw [tableGet?_append_right t k v hg]
      rfl
    · rw [hg] at h
      simp at h

theorem setdefaultKey_of_contains (t : Table) (k : String) (v : Val)
    (h : containsKey t k = true) : setdefaultKey t k v = t := by
  simp [setdefaultKey, h]

/-- The `dynamic` sub-dict mutation applied to the optional tool
table value. -/
def toolDynMutApply (tt? : Option Val) (m : Option Val) : Option Val :=
  match m, tt? with
  | some dv, some (.vtable tt) => some (.vtable (setKey tt "dynamic" dv))
  | _, _ => tt?

theorem dyn_stable (pt : Table) (tt? : Option Val) :
    _dynamic_license pt (toolDynMutApply tt? (_dynamic_license pt tt?).2) =
      _dynamic_license pt tt? := by
  rcases hn : normalizeDynamicList (tableGetD pt "dynamic" (.vlist [])) with e | ks
  · have hsnd : (_dynamic_license pt tt?).2 = none := by
      unfold _dynamic_license
      rw [hn]
    rw [hsnd]
    rcases tt? with _ | tv
    · rfl
    · rcases tv with sv | iv | bv | lv | gv <;> rfl
  · rcases tt? with _ | tv
    · have hsnd : (_dynamic_license pt none).2 = none := by
        unfold _dynamic_license
        rw [hn]
      rw [hsnd]
      rfl
    · rcases tv with sv | iv | bv | lv | gv
      · have hsnd : (_dynamic_license pt (some (.vstr sv))).2 = none := by
          unfold _dynamic_license
          rw [hn]
        rw [hsnd]
        rfl
      · have hsnd : (_dynamic_license pt (some (.vint iv))).2 = none := by
          unfold _dynamic_license
          rw [hn]
        rw [hsnd]
        rfl
      · have hsnd : (_dynamic_license pt (some (.vbool bv))).2 = none := by
          unfold _dynamic_license
          rw [hn]
        rw [hsnd]
        rfl
      · have hsnd : (_dynamic_license pt (some (.vlist lv))).2 = none := by
          unfold _dynamic_license
          rw [hn]
        rw [hsnd]
        rfl
      · rcases hg : tableGet? gv "dynamic" with _ | dv
        · have hsnd : (_dynamic_license pt (some (.vtable gv))).2 = none := by
            unfold _dynamic_license
            rw [hn]
            simp [tableGetD, hg, containsKey]
          rw [hsnd]
          rfl
        · rcases dv with dsv | div | dbv | dlv | dgv
          · have hsnd : (_dynamic_license pt (some (.vtable gv))).2 = none := by
              unfold _dynamic_license
              rw [hn]
              simp [tableGetD, hg]
            rw [hsnd]
            rfl
          · have hsnd : (_dynamic_license pt (some (.vtable gv))).2 = none := by
              unfold _dynamic_license
              rw [hn]
              simp [tableGetD, hg]
            rw [hsnd]
            rfl
          · have hsnd : (_dynamic_license pt (some (.vtable gv))).2 = none := by
              unfold _dynamic_license
              rw [hn]
              simp [tableGetD, hg]
            rw [hsnd]
            rfl
          · have hsnd : (_dynamic_license pt (some (.vtable gv))).2 = none := by
              unfold _dynamic_license
              rw [hn]
              simp [tableGetD, hg]
            rw [hsnd]
            rfl
          · have hsnd : (_dynamic_license pt (some (.vtable gv))).2 =
                some (.vtable (setdefaultKey dgv "license_files"
                  DEFAULT_LICENSE_FILES_VAL)) := by
              unfold _dynamic_license
              rw [hn]
              simp [tableGetD, hg, containsKey]
            rw [hsnd]
            show _dynamic_license pt (some (.vtable (setKey gv "dynamic"
              (.vtable (setdefaultKey dgv "license_files" DEFAULT_LICENSE_FILES_VAL))))) =
              _dynamic_license pt (some (.vtable gv))
            unfold _dynamic_license
            rw [hn]
            simp only
            rw [show tableGetD (setKey gv "dynamic" (.vtable (setdefaultKey dgv
                "license_files" DEFAULT_LICENSE_FILES_VAL))) "dynamic" (.vtable []) =
              .vtable (setdefaultKey dgv "license_files" DEFAULT_LICENSE_FILES_VAL) from by
                simp [tableGetD, tableGet?_setKey_self]]
            rw [show tableGetD gv "dynamic" (.vtable []) = .vtable dgv from by
              simp [tableGetD, hg]]
            simp only
            rw [containsKey_setKey_self gv "dynamic"]
            rw [show containsKey gv "dynamic" = true from by simp [containsKey, hg]]
            rw [setdefaultKey_of_contains _ _ _
              (containsKey_setdefaultKey_self dgv "license_files" DEFAULT_LICENSE_FILES_VAL)]

theorem tableGet?_applyEpMut_ne (cfg : Table) (m : Option (String × Val)) (k : String)
    (h : k ≠ "project") : tableGet? (applyEpMut cfg m) k = tableGet? cfg k := by
  unfold applyEpMut
  rcases m with _ | kw
  · rfl
  · rcases hp : tableGet? cfg "project" with _ | pv
    · rfl
    · rcases pv with sv | iv | bv | lv | p
      · rfl
      · rfl
      · rfl
      · rfl
      · exact tableGet?_setKey_ne cfg "project" k _ h

theorem getTool_applyEpMut (cfg : Table) (m : Option (String × Val)) :
    getToolSetuptools (applyEpMut cfg m) = getToolSetuptools cfg := by
  unfold getToolSetuptools tableGetD
  rw [tableGet?_applyEpMut_ne cfg m "tool" (by decide)]

theorem applyEpMut_project (cfg : Table) (pt0 : Table) (m : Option (String × Val))
    (hp : tableGet? cfg "project" = some (.vtable pt0)) :
    tableGet? (applyEpMut cfg m) "project" = some (.vtable (ptEpMut pt0 m)) := by
  rcases m with _ | ⟨k, w⟩
  · exact hp
  · unfold applyEpMut
    rw [hp]
    exact tableGet?_setKey_self cfg "project" _

theorem applyEpMut_absorb (c : Table) (pt0 : Table) (m : Option (String × Val))
    (hp : tableGet? c "project" = some (.vtable (ptEpMut pt0 m))) :
    applyEpMut c m = c := by
  rcases m with _ | ⟨k, w⟩
  · rfl
  · unfold applyEpMut
    rw [hp]
    show setKey c "project" (.vtable (setKey (setKey pt0 k w) k w)) = c
    rw [setKey_setKey]
    exact setKey_same c "project" _ hp

theorem tableGet?_applyDynMut_ne (c : Table) (m : Option Val) (k : String)
    (h : k ≠ "tool") : tableGet? (applyDynMut c m) k = tableGet? c k := by
  unfold applyDynMut
  rcases m with _ | dv
  · rfl
  · rcases ht : tableGet? c "tool" with _ | tv
    · rfl
    · rcases tv with sv | iv | bv | lv | tool
      · rfl
      · rfl
      · rfl
      · rfl
      · simp only
        rcases hs : tableGet? tool "setuptools" with _ | sv2
        · rfl
        · rcases sv2 with a | b | cc | dd | st
          · rfl
          · rfl
          · rfl
          · rfl
          · exact tableGet?_setKey_ne c "tool" k _ h

theorem getTool_applyDynMut (c : Table) (tool st : Table) (dv : Val)
    (htool : tableGet? c "tool" = some (.vtable tool))
    (hst : tableGet? tool "setuptools" = some (.vtable st)) :
    getToolSetuptools (applyDynMut c (some dv)) =
      .ok (some (.vtable (setKey st "dynamic" dv))) := by
  unfold applyDynMut
  rw [htool]
  simp only
  rw [hst]
  unfold getToolSetuptools tableGetD
  rw [tableGet?_setKey_self]
  simp only [Option.getD]
  rw [tableGet?_setKey_self]

theorem getTool_some_elim (cfg : Table) (v : Val)
    (h : getToolSetuptools cfg = .ok (some v)) :
    ∃ tool, tableGet? cfg "tool" = some (.vtable tool) ∧
      tableGet? tool "setuptools" = some v := by
  unfold getToolSetuptools tableGetD at h
  rcases hg : tableGet? cfg "tool" with _ | tv
  · rw [hg] at h
    simp [tableGet?] at h
  · rw [hg] at h
    rcases tv with sv | iv | bv | lv | tool
    · simp at h
    · simp at h
    · simp at h
    · simp at h
    · simp only [Option.getD] at h
      injection h with h
      exact ⟨tool, rfl, h⟩

theorem applyEpMut_idem (cfg : Table) (m : Option (String × Val)) :
    applyEpMut (applyEpMut cfg m) m = applyEpMut cfg m := by
  rcases m with _ | ⟨k, w⟩
  · rfl
  · rcases hp : tableGet? cfg "project" with _ | pv
    · unfold applyEpMut
      rw [hp]
      rw [hp]
    · rcases pv with sv | iv | bv | lv | p
      · unfold applyEpMut
        rw [hp]
        rw [hp]
      · unfold applyEpMut
        rw [hp]
        rw [hp]
      · unfold applyEpMut
        rw [hp]
        rw [hp]
      · unfold applyEpMut
        rw [hp]
        rw [hp]
      · exact applyEpMut_absorb _ p _ (applyEpMut_project cfg p (some (k, w)) hp)

theorem applyDynMut_idem (c : Table) (m : Option Val) :
    applyDynMut (applyDynMut c m) m = applyDynMut c m := by
  rcases m with _ | dv
  · rfl
  · rcases ht : tableGet? c "tool" with _ | tv
    · have hinner : applyDynMut c (some dv) = c := by
        unfold applyDynMut
        rw [ht]
      rw [hinner]
      exact hinner
    · rcases tv with sv | iv | bv | lv | tool
      · have hinner : applyDynMut c (some dv) = c := by
          unfold applyDynMut
          rw [ht]
        rw [hinner]
        exact hinner
      · have hinner : applyDynMut c (some dv) = c := by
          unfold applyDynMut
          rw [ht]
        rw [hinner]
        exact hinner
      · have hinner : applyDynMut c (some dv) = c := by
          unfold applyDynMut
          rw [ht]
        rw [hinner]
        exact hinner
      · have hinner : applyDynMut c (some dv) = c := by
          unfold applyDynMut
          rw [ht]
        rw [hinner]
        exact hinner
      · rcases hs : tableGet? tool "setuptools" with _ | sv2
        · have hinner : applyDynMut c (some dv) = c := by
            unfold applyDynMut
            rw [ht]
            simp only
            rw [hs]
          rw [hinner]
          exact hinner
        · rcases sv2 with a | b | cc | dd | st
          · have hinner : applyDynMut c (some dv) = c := by
              unfold applyDynMut
              rw [ht]
              simp only
              rw [hs]
            rw [hinner]
            exact hinner
          · have hinner : applyDynMut c (some dv) = c := by
              unfold applyDynMut
              rw [ht]
              simp only
              rw [hs]
            rw [hinner]
            exact hinner
          · have hinner : applyDynMut c (some dv) = c := by
              unfold applyDynMut
              rw [ht]
              simp only
              rw [hs]
            rw [hinner]
            exact hinner
          · have hinner : applyDynMut c (some dv) = c := by
              unfold applyDynMut
              rw [ht]
              simp only
              rw [hs]
            rw [hinner]
            exact hinner
          · have hinner : applyDynMut c (some dv) = setKey c "tool"
                (.vtable (setKey tool "setuptools" (.vtable (setKey st "dynamic" dv)))) := by
              unfold applyDynMut
              rw [ht]
              simp only
              rw [hs]
            rw [hinner]
            unfold applyDynMut
            rw [tableGet?_setKey_self]
            simp only
            rw [tableGet?_setKey_self]
            simp only
            rw [setKey_setKey, setKey_setKey, setKey_setKey]

theorem dyn_snd_some (pt : Table) (tt? : Option Val) (dv : Val)
    (h : (_dynamic_license pt tt?).2 = some dv) : ∃ tt, tt? = some (.vtable tt) := by
  rcases hn : normalizeDynamicList (tableGetD pt "dynamic" (.vlist [])) with e | ks
  · unfold _dynamic_license at h
    rw [hn] at h
    simp at h
  · rcases tt? with _ | tv
    · unfold _dynamic_license at h
      rw [hn] at h
      simp at h
    · rcases tv with sv | iv | bv | lv | gv
      · unfold _dynamic_license at h
        rw [hn] at h
        simp at h
      · unfold _dynamic_license at h
        rw [hn] at h
        simp at h
      · unfold _dynamic_license at h
        rw [hn] at h
        simp at h
      · unfold _dynamic_license at h
        rw [hn] at h
        simp at h
      · exact ⟨gv, rfl⟩

theorem applyFields_stable (ext : Externals) (d0 : Dist) (cfg : Table) (root : String) :
    applyFields ext d0 ((applyFields ext d0 cfg root).2.1) root =
      applyFields ext d0 cfg root := by
  rcases hts : getToolSetuptools cfg with e | tt?
  · have h1 : applyFields ext d0 cfg root = (.error e, cfg, []) := by
      unfold applyFields
      rw [hts]
    rw [h1]
    exact h1
  · rcases hp : tableGet? cfg "project" with _ | pv
    · have h1 : applyFields ext d0 cfg root =
          (.error (.attributeError "copy of None"), cfg, []) := by
        unfold applyFields
        rw [hts]
        simp only
        rw [hp]
      rw [h1]
      exact h1
    · rcases pv with sv | iv | bv | lv | gv
      · have h1 : applyFields ext d0 cfg root =
            (.error (.typeError "project not a table"), cfg, []) := by
          unfold applyFields
          rw [hts]
          simp only
          rw [hp]
        rw [h1]
        exact h1
      · have h1 : applyFields ext d0 cfg root =
            (.error (.typeError "project not a table"), cfg, []) := by
          unfold applyFields
          rw [hts]
          simp only
          rw [hp]
        rw [h1]
        exact h1
      · have h1 : applyFields ext d0 cfg root =
            (.error (.typeError "project not a table"), cfg, []) := by
          unfold applyFields
          rw [hts]
          simp only
          rw [hp]
        rw [h1]
        exact h1
      · have h1 : applyFields ext d0 cfg root =
            (.error (.typeError "project not a table"), cfg, []) := by
          unfold applyFields
          rw [hts]
          simp only
          rw [hp]
        rw [h1]
        exact h1
      · rcases hu : _unify_entry_points gv with ⟨ur1, um⟩
        have hstab : _unify_entry_points (ptEpMut gv um) = (ur1, um) := by
          have h := unify_stable gv
          rw [hu] at h
          exact h
        have hp1 : tableGet? (applyEpMut cfg um) "project" =
            some (.vtable (ptEpMut gv um)) := applyEpMut_project cfg gv um hp
        have hts1 : getToolSetuptools (applyEpMut cfg um) = .ok tt? := by
          rw [getTool_applyEpMut]
          exact hts
        rcases ur1 with e1 | pt1
        · have hc : (applyFields ext d0 cfg root).2.1 = applyEpMut cfg um := by
            unfold applyFields
            rw [hts]
            simp only
            rw [hp]
            simp only
            rw [hu]
          rw [hc]
          have habs1 : applyEpMut (applyEpMut cfg um) um = applyEpMut cfg um :=
            applyEpMut_absorb _ gv um hp1
          unfold applyFields
          rw [hts]
          simp only
          rw [hts1]
          simp only
          rw [hp]
          simp only
          rw [hp1]
          simp only
          rw [hu, hstab]
          simp only
          rw [habs1]
        · rcases hd : _dynamic_license pt1 tt? with ⟨dr1, dm⟩
          have hc : (applyFields ext d0 cfg root).2.1 =
              applyDynMut (applyEpMut cfg um) dm := by
            unfold applyFields
            rw [hts]
            simp only
            rw [hp]
            simp only
            rw [hu]
            simp only
            rw [hd]
            simp only
            split
            · rfl
            · split
              · rfl
              · split
                · split
                  · rfl
                  · rfl
                · rfl
          rw [hc]
          have hp2 : tableGet? (applyDynMut (applyEpMut cfg um) dm) "project" =
              some (.vtable (ptEpMut gv um)) := by
            rw [tableGet?_applyDynMut_ne _ _ _ (by decide)]
            exact hp1
          have habs1 : applyEpMut (applyDynMut (applyEpMut cfg um) dm) um =
              applyDynMut (applyEpMut cfg um) dm :=
            applyEpMut_absorb _ gv um hp2
          rcases dm with _ | dv
          · have hts2 : getToolSetuptools (applyDynMut (applyEpMut cfg um) none) =
                .ok tt? := hts1
            have hstab2 : _dynamic_license pt1 tt? = (dr1, none) := hd
            unfold applyFields
            rw [hts]
            simp only
            rw [hts2]
            simp only
            rw [hp]
            simp only
            rw [hp2]
            simp only
            rw [hu, hstab]
            simp only
            rw [habs1]
            rw [hd]
            simp only [applyDynMut]
          · obtain ⟨tt, htt⟩ := dyn_snd_some pt1 tt? dv (by rw [hd])
            subst htt
            obtain ⟨tool1, htool1, hst1⟩ :=
              getTool_some_elim (applyEpMut cfg um) _ hts1
            have hts2 := getTool_applyDynMut (applyEpMut cfg um) tool1 tt dv htool1 hst1
            have hstab2 : _dynamic_license pt1
                (some (.vtable (setKey tt "dynamic" dv))) = (dr1, some dv) := by
              have h := dyn_stable pt1 (some (.vtable tt))
              rw [hd] at h
              simpa [toolDynMutApply] using h
            have habs2 : applyDynMut (applyDynMut (applyEpMut cfg um) (some dv))
                (some dv) = applyDynMut (applyEpMut cfg um) (some dv) :=
              applyDynMut_idem _ _
            unfold applyFields
            rw [hts]
            simp only
            rw [hts2]
            simp only
            rw [hp]
            simp only
            rw [hp2]
            simp only
            rw [hu, hstab]
            simp only
            rw [habs1]
            rw [hd, hstab2]
            simp only
            rw [habs2]
            rw [setKey_setKey]

/-- Claim C9: applying the translation pass twice to the same document
(the second time on the document exactly as the first pass left it,
including any in-place mutations), each time with a fresh metadata
model instance, yields identical outcomes — in particular
field-for-field identical models. -/
theorem pyproject_c9 (ext : Externals) (d0 : Dist) (cfg : Table) (root cwd0 : String) :
    (apply ext d0 (apply ext d0 cfg root cwd0).config root cwd0).result =
      (apply ext d0 cfg root cwd0).result := by
  rw [apply_config]
  unfold apply
  rw [applyFields_stable]

end PyProject
